import Mathlib

/-!
Verification development for the mrgb-curl HTTP client.

This file gives a shallow embedding, in Lean 4, of the core of the
repository: the query-parameter codec (src/lib/queryParams.ts), the
collections/history store (src/schemas/index.ts, collectionsStore), the
request-tab store (requestTabsStore), the dual-mode request executor
(useHttp.ts) and the server proxy endpoint (routes/api/proxy.ts).

JavaScript host functionality that the source relies on (the WHATWG URL
parser restricted to the components the code reads, URLSearchParams
parsing and serialization including percent-coding over UTF-8 bytes,
plain-object header records) is modelled explicitly below; each such
model carries a comment naming the host behaviour it embeds.  Strings
are modelled as Lean strings (sequences of Unicode scalar values) and
bytes as natural numbers below 256.
-/

/-! ## Bytes, hex digits and UTF-8

Model of the byte-level machinery behind encodeURIComponent-style
percent-coding as used by URLSearchParams: characters are converted to
UTF-8 bytes and back.  Bytes are represented as naturals (< 256 for all
values actually produced).
-/

/-- Is this byte a UTF-8 continuation byte (10xxxxxx)? -/
def isCont (b : Nat) : Bool :=
  128 ≤ b && b ≤ 191

/-- Uppercase hex digit character for a value below 16 (used by the
url-encoded serializer, which emits uppercase percent escapes). -/
def hexDigitChar (n : Nat) : Char :=
  if n < 10 then Char.ofNat (48 + n) else Char.ofNat (55 + n)

/-- Numeric value of a hex digit character (0 for non-hex input; callers
guard with `isHexDigit`). -/
def hexDigitVal (c : Char) : Nat :=
  if 48 ≤ c.toNat ∧ c.toNat ≤ 57 then c.toNat - 48
  else if 65 ≤ c.toNat ∧ c.toNat ≤ 70 then c.toNat - 55
  else if 97 ≤ c.toNat ∧ c.toNat ≤ 102 then c.toNat - 87
  else 0

/-- Is this character an ASCII hex digit (either case)?  Percent-decoding
accepts both cases, per the URL standard. -/
def isHexDigit (c : Char) : Bool :=
  (48 ≤ c.toNat && c.toNat ≤ 57) ||
  (65 ≤ c.toNat && c.toNat ≤ 70) ||
  (97 ≤ c.toNat && c.toNat ≤ 102)

/-- UTF-8 encoding of one Unicode scalar value, as a list of bytes. -/
def utf8Char (c : Char) : List Nat :=
  let n := c.toNat
  if n < 128 then [n]
  else if n < 2048 then [192 + n / 64, 128 + n % 64]
  else if n < 65536 then [224 + n / 4096, 128 + (n / 64) % 64, 128 + n % 64]
  else [240 + n / 262144, 128 + (n / 4096) % 64, 128 + (n / 64) % 64, 128 + n % 64]

/-- UTF-8 encoding of a character sequence. -/
def utf8Encode (l : List Char) : List Nat :=
  l.flatMap utf8Char

/-- The Unicode replacement character U+FFFD, emitted by the WHATWG
UTF-8 decoder for malformed input. -/
def replacementChar : Char := Char.ofNat 65533

/-- Does `b1` lie in the admissible range for the second byte of a
three-byte sequence led by `b` (this is where the decoder rejects
overlong encodings and surrogates)? -/
def validSecond3 (b b1 : Nat) : Bool :=
  if b = 224 then 160 ≤ b1 && b1 ≤ 191
  else if b = 237 then 128 ≤ b1 && b1 ≤ 159
  else isCont b1

/-- Does `b1` lie in the admissible range for the second byte of a
four-byte sequence led by `b`? -/
def validSecond4 (b b1 : Nat) : Bool :=
  if b = 240 then 144 ≤ b1 && b1 ≤ 191
  else if b = 244 then 128 ≤ b1 && b1 ≤ 143
  else isCont b1

/-- WHATWG-style UTF-8 decoder with replacement on malformed input: a
rejected byte is re-examined as the start of the next sequence. -/
def utf8DecodeLossy : List Nat → List Char
  | [] => []
  | b :: bs =>
    if b < 128 then Char.ofNat b :: utf8DecodeLossy bs
    else if b < 194 then replacementChar :: utf8DecodeLossy bs
    else if b < 224 then
      match bs with
      | [] => [replacementChar]
      | b1 :: bs1 =>
        if isCont b1 then
          Char.ofNat ((b - 192) * 64 + (b1 - 128)) :: utf8DecodeLossy bs1
        else replacementChar :: utf8DecodeLossy (b1 :: bs1)
    else if b < 240 then
      match bs with
      | [] => [replacementChar]
      | b1 :: bs1 =>
        if validSecond3 b b1 then
          match bs1 with
          | [] => [replacementChar, replacementChar]
          | b2 :: bs2 =>
            if isCont b2 then
              Char.ofNat ((b - 224) * 4096 + (b1 - 128) * 64 + (b2 - 128)) ::
                utf8DecodeLossy bs2
            else replacementChar :: utf8DecodeLossy (b2 :: bs2)
        else replacementChar :: utf8DecodeLossy (b1 :: bs1)
    else if b < 245 then
      match bs with
      | [] => [replacementChar]
      | b1 :: bs1 =>
        if validSecond4 b b1 then
          match bs1 with
          | [] => [replacementChar, replacementChar]
          | b2 :: bs2 =>
            if isCont b2 then
              match bs2 with
              | [] => [replacementChar, replacementChar, replacementChar]
              | b3 :: bs3 =>
                if isCont b3 then
                  Char.ofNat ((b - 240) * 262144 + (b1 - 128) * 4096 +
                      (b2 - 128) * 64 + (b3 - 128)) :: utf8DecodeLossy bs3
                else replacementChar :: utf8DecodeLossy (b3 :: bs3)
            else replacementChar :: utf8DecodeLossy (b2 :: bs2)
        else replacementChar :: utf8DecodeLossy (b1 :: bs1)
    else replacementChar :: utf8DecodeLossy bs

/-! ## Percent-coding and the url-encoded codec

Model of the application/x-www-form-urlencoded parser and serializer
used by URLSearchParams (the host API behind parseQueryString and
urlObj.searchParams.append in the source). -/

/-- Percent-decode a byte stream: a percent sign followed by two hex
digits becomes one byte; anything else passes through unchanged. -/
def percentDecodeBytes : List Nat → List Nat
  | [] => []
  | [b] => [b]
  | [b, b1] => [b, b1]
  | b :: b1 :: b2 :: rest =>
    if b = 37 && isHexDigit (Char.ofNat b1) && isHexDigit (Char.ofNat b2) then
      (hexDigitVal (Char.ofNat b1) * 16 + hexDigitVal (Char.ofNat b2)) ::
        percentDecodeBytes rest
    else b :: percentDecodeBytes (b1 :: b2 :: rest)

/-- Replace plus signs by spaces (the first step of url-encoded
component decoding). -/
def plusToSpace (l : List Char) : List Char :=
  l.map (fun c => if c = '+' then ' ' else c)

/-- Decode one url-encoded component: plus to space, percent-decode over
UTF-8 bytes, then UTF-8 decode with replacement. -/
def decodeComponentChars (l : List Char) : List Char :=
  utf8DecodeLossy (percentDecodeBytes (utf8Encode (plusToSpace l)))

/-- Is this character left verbatim by the url-encoded serializer
(ASCII digits and letters, and asterisk, hyphen, period, underscore)? -/
def urlencodedSafe (c : Char) : Bool :=
  (48 ≤ c.toNat && c.toNat ≤ 57) || (65 ≤ c.toNat && c.toNat ≤ 90) ||
  (97 ≤ c.toNat && c.toNat ≤ 122) || c = '*' || c = '-' || c = '.' || c = '_'

/-- url-encoded serialization of one character: space becomes plus,
safe characters pass through, everything else is percent-encoded over
its UTF-8 bytes with uppercase hex. -/
def encodeComponentChar (c : Char) : List Char :=
  if c = ' ' then ['+']
  else if urlencodedSafe c then [c]
  else (utf8Char c).flatMap (fun b => ['%', hexDigitChar (b / 16), hexDigitChar (b % 16)])

/-- url-encoded serialization of a component. -/
def encodeComponentChars (l : List Char) : List Char :=
  l.flatMap encodeComponentChar

/-- Split a character list on ampersands (the piece structure of a query
string).  Always returns at least one piece. -/
def splitAmp : List Char → List (List Char)
  | [] => [[]]
  | c :: cs =>
    if c = '&' then [] :: splitAmp cs
    else
      match splitAmp cs with
      | [] => [[c]]
      | x :: xs => (c :: x) :: xs

/-- Join pieces with ampersands (inverse of `splitAmp` on
ampersand-free pieces). -/
def joinAmp : List (List Char) → List Char
  | [] => []
  | [x] => x
  | x :: xs => x ++ '&' :: joinAmp xs

/-- Split a piece at its first equals sign; a piece with no equals sign
is all name with empty value, matching url-encoded parsing. -/
def splitFirstEq : List Char → List Char × List Char
  | [] => ([], [])
  | c :: cs =>
    if c = '=' then ([], cs)
    else
      let p := splitFirstEq cs
      (c :: p.1, p.2)

/-- Model of URLSearchParams construction from a query string: split on
ampersands, drop empty pieces, split each piece at its first equals
sign, and decode name and value. -/
def parsePairs (q : String) : List (String × String) :=
  (splitAmp q.data).filterMap (fun piece =>
    if piece = [] then none
    else
      let p := splitFirstEq piece
      some (String.mk (decodeComponentChars p.1), String.mk (decodeComponentChars p.2)))

/-- Model of URLSearchParams serialization (urlObj.toString after
appending pairs): encode each name and value, join with equals signs and
ampersands. -/
def serializePairs (ps : List (String × String)) : String :=
  String.mk (joinAmp (ps.map (fun p =>
    encodeComponentChars p.1.data ++ '=' :: encodeComponentChars p.2.data)))

/-! ## The URL host object

Model of the parts of the WHATWG URL host API that the source reads:
construction (which throws on an input without a valid scheme, modelled
as an Option), the search component, clearing the query and appending
search parameters, and serialization.  The scheme/authority/path portion
is carried verbatim: its normalization by the host parser is orthogonal
to every property below, all of which concern only the query component.
Likewise the host parser's percent-escaping of the raw query is not
applied: it only rewrites characters outside the ampersand/equals/plus/
percent alphabet into escapes that the url-encoded parser decodes back
to the same characters, so the decoded pair list is unchanged. -/

/-- Split a character list at the first occurrence of `sep`; `none` when
`sep` does not occur. -/
def splitFirstChar (sep : Char) : List Char → Option (List Char × List Char)
  | [] => none
  | c :: cs =>
    if c = sep then some ([], cs)
    else (splitFirstChar sep cs).map (fun p => (c :: p.1, p.2))

/-- Is this a valid URL scheme (one ASCII letter followed by ASCII
alphanumerics, plus, hyphen or period)? -/
def validScheme : List Char → Bool
  | [] => false
  | c :: cs => c.isAlpha && cs.all (fun d => d.isAlphanum || d = '+' || d = '-' || d = '.')

/-- A parsed URL, reduced to the components the source reads: the scheme,
the portion between the scheme colon and the query/fragment (carried
verbatim), the query (without its question mark) and the fragment
(without its hash). -/
structure JsUrl where
  scheme : String
  core : String
  query : Option String
  fragment : Option String
  deriving DecidableEq

/-- Model of the URL constructor: fails (throws) unless the input starts
with a valid scheme and a colon; the query runs from the first question
mark before the fragment; the fragment runs from the first hash. -/
def jsUrlParse (u : String) : Option JsUrl :=
  match splitFirstChar ':' u.data with
  | none => none
  | some (schemeChars, rest) =>
    if validScheme schemeChars then
      let bh := match splitFirstChar '#' rest with
        | some p => (p.1, some p.2)
        | none => (rest, none)
      let cq := match splitFirstChar '?' bh.1 with
        | some p => (p.1, some p.2)
        | none => (bh.1, none)
      some ⟨String.mk schemeChars, String.mk cq.1,
        (cq.2).map String.mk, (bh.2).map String.mk⟩
    else none

/-- Model of URL serialization (href): scheme, colon, core, then the
query behind a question mark when present, then the fragment behind a
hash when present. -/
def serializeJsUrl (w : JsUrl) : String :=
  String.mk (w.scheme.data ++ ':' :: w.core.data ++
    (match w.query with | some q => '?' :: q.data | none => []) ++
    (match w.fragment with | some f => '#' :: f.data | none => []))

/-- Model of the search getter: the query preceded by a question mark,
or the empty string when the query is absent or empty. -/
def jsSearch (w : JsUrl) : String :=
  match w.query with
  | some q => if q = "" then "" else String.mk ('?' :: q.data)
  | none => ""

/-! ## QueryParamCodec (src/lib/queryParams.ts) -/

/-- A query parameter row of the editor: key, value, enabled flag
(QueryParamSchema in src/schemas/index.ts). -/
structure QueryParam where
  key : String
  value : String
  enabled : Bool
  deriving DecidableEq

/-- extractQueryString: the substring after the first question mark,
stopping at a later hash; empty when there is no question mark. -/
def extractQueryString (url : String) : String :=
  match splitFirstChar '?' url.data with
  | none => ""
  | some p =>
    match splitFirstChar '#' p.2 with
    | none => String.mk p.2
    | some q => String.mk q.1

/-- parseQueryString: strip a leading question mark, parse with
URLSearchParams, and mark every parameter enabled. -/
def parseQueryString (queryString : String) : List QueryParam :=
  if queryString = "" then []
  else
    let normalized := match queryString.data with
      | '?' :: rest => String.mk rest
      | _ => queryString
    (parsePairs normalized).map (fun p => ⟨p.1, p.2, true⟩)

/-- parseUrlParams: parse the URL and read its search component; on
parse failure fall back to a manual scan of the raw string; empty input
yields no parameters. -/
def parseUrlParams (url : String) : List QueryParam :=
  if url = "" then []
  else
    match jsUrlParse url with
    | some w => parseQueryString (jsSearch w)
    | none => parseQueryString (extractQueryString url)

/-- buildUrlWithParams: parse the base URL, clear its query, append the
enabled parameters with non-empty keys in order, and serialize; on parse
failure return the base URL unchanged. -/
def buildUrlWithParams (baseUrl : String) (params : List QueryParam) : String :=
  match jsUrlParse baseUrl with
  | none => baseUrl
  | some w =>
    let kept := params.filter (fun p => p.enabled && p.key ≠ "")
    serializeJsUrl { w with
      query := if kept = [] then none
        else some (serializePairs (kept.map (fun p => (p.key, p.value)))) }

/-! ## Data model (src/schemas/index.ts)

Dates (Date values in the source) are modelled as natural-number
timestamps; generated identifiers are nondeterministic in the source
(Date.now plus Math.random) and are passed in as explicit arguments. -/

/-- The seven standard HTTP verbs (HttpMethodSchema). -/
inductive HttpMethod where
  | GET | POST | PUT | PATCH | DELETE | HEAD | OPTIONS
  deriving DecidableEq

/-- A request or response header row (HeaderSchema). -/
structure Header where
  key : String
  value : String
  deriving DecidableEq

/-- Request body type tag (RequestBodySchema.type). -/
inductive BodyType where
  | json | text | formData | xWwwFormUrlencoded
  deriving DecidableEq

/-- A request body (RequestBodySchema); absence is modelled by Option at
the use sites. -/
structure RequestBody where
  type : BodyType
  content : String
  deriving DecidableEq

/-- A saved HTTP request (HttpRequestSchema). -/
structure HttpRequest where
  id : String
  name : String
  method : HttpMethod
  url : String
  headers : List Header
  params : List QueryParam
  body : Option RequestBody
  createdAt : Nat
  updatedAt : Nat
  deriving DecidableEq

/-- A response record (HttpResponseSchema). -/
structure HttpResponse where
  status : Nat
  statusText : String
  headers : List Header
  body : String
  responseTime : Nat
  size : Nat
  timestamp : Nat
  deriving DecidableEq

/-- A history entry (RequestHistorySchema). -/
structure RequestHistory where
  id : String
  requestId : String
  request : HttpRequest
  response : HttpResponse
  timestamp : Nat
  deriving DecidableEq

/-- The argument of addToHistory: a history entry minus its generated
id and timestamp (Omit in the source signature). -/
structure HistoryInput where
  requestId : String
  request : HttpRequest
  response : HttpResponse
  deriving DecidableEq

/-! ## CollectionsStore history actions (src/schemas/index.ts, collectionsStore) -/

/-- Stable insertion of a string into a sorted list, keeping equals in
encounter order (model of one step of Array.sort's ordering). -/
def insertSortedString (s : String) : List String → List String
  | [] => [s]
  | x :: xs => if x ≤ s then x :: insertSortedString s xs else s :: x :: xs

/-- Model of Array.sort() on strings: stable sort by code-unit
lexicographic order. -/
def sortStrings : List String → List String
  | [] => []
  | x :: xs => insertSortedString x (sortStrings xs)

/-- buildHistoryKey: the URL joined to the sorted serialization of the
enabled parameters with non-empty keys. -/
def buildHistoryKey (request : HttpRequest) : String :=
  let serializedParams :=
    String.mk (joinAmp ((sortStrings
      (((request.params.filter (fun p => p.enabled && p.key ≠ "")).map
        (fun p => p.key ++ "=" ++ p.value)))).map String.data))
  request.url ++ "::" ++ serializedParams

/-- truncateResponseBody: cap the stored body at 10 KB (10240 units),
appending a marker; shorter bodies are returned unchanged. -/
def truncateResponseBody (response : HttpResponse) : HttpResponse :=
  let maxBodySize := 10 * 1024
  if response.body.length > maxBodySize then
    { response with
      body := String.mk (response.body.data.take maxBodySize) ++
        "\n... [truncated for storage]" }
  else response

/-- Does this stored entry collide with the key of the incoming one? -/
def historyKeyMatches (nextKey : String) (item : RequestHistory) : Bool :=
  buildHistoryKey item.request == nextKey

/-- addToHistory, as a function of the history list it reads and
writes: truncate the response, compute the dedup key, and either update
and re-rank the first entry with that key (keeping its id) or prepend a
fresh entry; cap the list at 50.  The source removes the entry at the
found index with an index filter; removing the first key match is the
same operation. -/
def addToHistory (history : List RequestHistory) (entry : HistoryInput)
    (newId : String) (now : Nat) : List RequestHistory :=
  let truncatedResponse := truncateResponseBody entry.response
  let nextKey := buildHistoryKey entry.request
  match history.find? (historyKeyMatches nextKey) with
  | some existingEntry =>
    let updatedEntry : RequestHistory :=
      { id := existingEntry.id
        requestId := entry.requestId
        request := entry.request
        response := truncatedResponse
        timestamp := now }
    (updatedEntry :: history.eraseP (historyKeyMatches nextKey)).take 50
  | none =>
    let newEntry : RequestHistory :=
      { id := newId
        requestId := entry.requestId
        request := entry.request
        response := truncatedResponse
        timestamp := now }
    (newEntry :: history).take 50

/-! ## TabStore (requestTabsStore) -/

/-- Authentication configuration of a tab: a type tag with per-variant
optional payloads, exactly as in the source interface. -/
structure BasicCreds where
  username : String
  password : String
  deriving DecidableEq

/-- Bearer token payload. -/
structure BearerCreds where
  token : String
  deriving DecidableEq

/-- Where an API key is injected. -/
inductive ApiKeyAddTo where
  | header | query
  deriving DecidableEq

/-- API key payload. -/
structure ApiKeyCreds where
  key : String
  value : String
  addTo : ApiKeyAddTo
  deriving DecidableEq

/-- Auth type tag. -/
inductive AuthType where
  | none | basic | bearer | apiKey
  deriving DecidableEq

/-- The auth field of a tab. -/
structure AuthConfig where
  type : AuthType
  basic : Option BasicCreds
  bearer : Option BearerCreds
  apiKey : Option ApiKeyCreds
  deriving DecidableEq

/-- RequestTabData: one editable draft tab. -/
structure RequestTabData where
  id : String
  name : String
  url : String
  method : HttpMethod
  headers : List Header
  params : List QueryParam
  body : Option RequestBody
  auth : AuthConfig
  isDirty : Bool
  collectionRequestId : Option String
  response : Option HttpResponse
  deriving DecidableEq

/-- A partial tab update (Partial of RequestTabData as the store's
callers use it: request data, dirty flag and collection link; the tab's
own generated id is never part of an update). -/
structure TabPatch where
  name : Option String := none
  url : Option String := none
  method : Option HttpMethod := none
  headers : Option (List Header) := none
  params : Option (List QueryParam) := none
  body : Option (Option RequestBody) := none
  auth : Option AuthConfig := none
  isDirty : Option Bool := none
  collectionRequestId : Option (Option String) := none
  response : Option (Option HttpResponse) := none
  deriving DecidableEq

/-- Object-spread of a patch over a tab: each field present in the patch
overrides the tab's field. -/
def applyPatch (tab : RequestTabData) (p : TabPatch) : RequestTabData :=
  { id := tab.id
    name := p.name.getD tab.name
    url := p.url.getD tab.url
    method := p.method.getD tab.method
    headers := p.headers.getD tab.headers
    params := p.params.getD tab.params
    body := p.body.getD tab.body
    auth := p.auth.getD tab.auth
    isDirty := p.isDirty.getD tab.isDirty
    collectionRequestId := p.collectionRequestId.getD tab.collectionRequestId
    response := p.response.getD tab.response }

/-- The store state: the open tabs and the active-tab pointer. -/
structure TabsState where
  tabs : List RequestTabData
  activeTabId : Option String
  deriving DecidableEq

/-- createDefaultTab with the generated id passed in: GET, empty url,
headers and params, no body, auth none, clean. -/
def createDefaultTab (freshId : String) : RequestTabData :=
  { id := freshId
    name := "New Request"
    url := ""
    method := .GET
    headers := []
    params := []
    body := none
    auth := { type := .none, basic := none, bearer := none, apiKey := none }
    isDirty := false
    collectionRequestId := none
    response := none }

/-- addTab: append a fresh default tab and activate it. -/
def addTab (s : TabsState) (freshId : String) : TabsState :=
  let newTab := createDefaultTab freshId
  { tabs := s.tabs ++ [newTab], activeTabId := some newTab.id }

/-- findIndex result as in JavaScript: the index of the first match, or
minus one. -/
def jsFindIndex (p : RequestTabData → Bool) (l : List RequestTabData) : Int :=
  match l.findIdx? p with
  | some i => (i : Int)
  | none => -1

/-- removeTab: with a single tab open, replace it by a fresh default
(this branch is taken before the id is looked up); otherwise drop the
matching tab and, when the removed id was active, activate the tab
before the removed index, or the first tab when none precedes. -/
def removeTab (s : TabsState) (id : String) (freshId : String) : TabsState :=
  let tabIndex := jsFindIndex (fun t => t.id == id) s.tabs
  if s.tabs.length = 1 then
    let newTab := createDefaultTab freshId
    { tabs := [newTab], activeTabId := some newTab.id }
  else
    let newTabs := s.tabs.filter (fun t => t.id != id)
    let newActiveId :=
      if s.activeTabId = some id then
        if tabIndex > 0 then (newTabs.get? (tabIndex - 1).toNat).map (fun t => t.id)
        else (newTabs.get? 0).map (fun t => t.id)
      else s.activeTabId
    { tabs := newTabs, activeTabId := newActiveId }

/-- updateTab: merge the updates into the matching tab; the dirty flag
follows an explicit isDirty in the updates, else markDirty, else stays. -/
def updateTab (s : TabsState) (id : String) (updates : TabPatch)
    (markDirty : Bool := true) : TabsState :=
  { s with
    tabs := s.tabs.map (fun tab =>
      if tab.id == id then
        let nextIsDirty := match updates.isDirty with
          | some b => b
          | none => if markDirty then true else tab.isDirty
        { applyPatch tab { updates with isDirty := none } with isDirty := nextIsDirty }
      else tab) }

/-- renameTab: pure metadata update of the name. -/
def renameTab (s : TabsState) (id : String) (name : String) : TabsState :=
  { s with
    tabs := s.tabs.map (fun tab => if tab.id == id then { tab with name := name } else tab) }

/-- Is this tab linked to the given collection request (the predicate
of the find calls in openCollectionRequest)? -/
def taggedWith (collectionRequestId : String) (t : RequestTabData) : Bool :=
  t.collectionRequestId == some collectionRequestId

/-- openCollectionRequest: reuse the tab already linked to this
collection request, overwriting it with the given data, forcing the
link and clearing dirty, then activate it; otherwise append a new tab
seeded from a default tab and the data, linked and clean, and activate
it. -/
def openCollectionRequest (s : TabsState) (collectionRequestId : String)
    (data : TabPatch) (freshId : String) : TabsState :=
  match s.tabs.find? (taggedWith collectionRequestId) with
  | some existingTab =>
    { tabs := s.tabs.map (fun tab =>
        if tab.id == existingTab.id then
          { applyPatch tab data with
            collectionRequestId := some collectionRequestId
            isDirty := false }
        else tab)
      activeTabId := some existingTab.id }
  | none =>
    let newTab : RequestTabData :=
      { applyPatch (createDefaultTab freshId) data with
        collectionRequestId := some collectionRequestId
        isDirty := false }
    { tabs := s.tabs ++ [newTab], activeTabId := some newTab.id }

/-! ## RequestExecutor (src/hooks/useHttp.ts) and ProxyEndpoint (src/routes/api/proxy.ts)

The network is modelled as an explicit argument: the outcome of the
outbound fetch (a target response, or a thrown message).  Each executor
returns its result together with the number of fetch calls it made, so
that short-circuiting before the network layer is expressible.  Wall
clock readings (performance.now differences) are passed in as
arguments. -/

/-- The method strings accepted by RequestExecutionSchema. -/
def httpMethodStrings : List String :=
  ["GET", "POST", "PUT", "PATCH", "DELETE", "HEAD", "OPTIONS"]

/-- Setting a key on a plain JavaScript object used as a string record:
an existing key keeps its position and takes the new value, a new key is
appended. -/
def jsRecordSet (m : List (String × String)) (k v : String) : List (String × String) :=
  if m.any (fun p => p.1 == k) then
    m.map (fun p => if p.1 == k then (k, v) else p)
  else m ++ [(k, v)]

/-- Building a string record by successive sets (the headers.forEach
loops in the executor and the proxy handler). -/
def jsRecordOfList (l : List (String × String)) : List (String × String) :=
  l.foldl (fun m p => jsRecordSet m p.1 p.2) []

/-- Byte length of the UTF-8 encoding of a string (the
TextEncoder().encode(...).length computation). -/
def utf8ByteLength (s : String) : Nat :=
  (utf8Encode s.data).length

/-- What the outbound fetch of the target produced, as far as the code
reads it: status, status text, headers in iteration order, body text. -/
structure TargetResponse where
  status : Nat
  statusText : String
  headers : List (String × String)
  body : String
  deriving DecidableEq

/-- The JSON envelope the proxy returns on a completed target fetch. -/
structure ProxyEnvelope where
  status : Nat
  statusText : String
  headers : List (String × String)
  body : String
  responseTime : Nat
  size : Nat
  deriving DecidableEq

/-- The JSON body of the proxy's own HTTP response: a normalized
envelope, or an error object. -/
inductive ProxyBody where
  | envelope (e : ProxyEnvelope)
  | errorBody (msg : String)
  deriving DecidableEq

/-- The proxy's own HTTP response. -/
structure ProxyHttpResponse where
  status : Nat
  body : ProxyBody
  deriving DecidableEq

/-- The JSON body POSTed to /api/proxy, as the handler destructures it;
a url that is absent or not a string is modelled as none. -/
structure ProxyRequestBody where
  method : Option String
  url : Option String
  headers : List (String × String)
  body : Option String
  deriving DecidableEq

/-- The POST handler of /api/proxy: reject a missing, non-string or
empty url with 400; on a completed outbound fetch answer 200 with the
normalized envelope carrying the target's status, all target headers,
the body text, the measured latency and the UTF-8 byte size; on a
thrown fetch answer 500 with the error message. -/
def proxyPost (req : ProxyRequestBody)
    (fetchResult : Except String TargetResponse) (elapsed : Nat) : ProxyHttpResponse :=
  match req.url with
  | none => { status := 400, body := .errorBody "Invalid URL" }
  | some u =>
    if u = "" then { status := 400, body := .errorBody "Invalid URL" }
    else
      match fetchResult with
      | .error msg => { status := 500, body := .errorBody msg }
      | .ok t =>
        { status := 200
          body := .envelope
            { status := t.status
              statusText := t.statusText
              headers := jsRecordOfList t.headers
              body := t.body
              responseTime := elapsed
              size := utf8ByteLength t.body } }

/-- The executor's input (RequestExecutionSchema): a method string, a
url string, optional headers record and optional body. -/
structure ExecRequest where
  method : String
  url : String
  headers : Option (List (String × String))
  body : Option String
  deriving DecidableEq

/-- The JSON body the proxy-mode executor serializes and POSTs to
/api/proxy, as the handler then destructures it. -/
def proxyBodyOfExec (req : ExecRequest) : ProxyRequestBody :=
  { method := some req.method
    url := some req.url
    headers := req.headers.getD []
    body := req.body }

/-- The error taxonomy of the executor: schema validation failure
(ZodError), direct-mode transport failure, proxy-reported failure. -/
inductive ExecError where
  | validation
  | network (msg : String)
  | proxy (msg : String)
  deriving DecidableEq

/-- RequestExecutionSchema.parse succeeds: the method is one of the
seven verbs and the url parses as a URL. -/
def validExecRequest (r : ExecRequest) : Bool :=
  httpMethodStrings.contains r.method && (jsUrlParse r.url).isSome

/-- executeProxyRequest: validate, then POST to the proxy.  A non-2xx
proxy status is raised as a proxy error with the proxy's message (or a
generic fallback); a 2xx envelope is converted into a response record
with the envelope's status, headers, body and timings.  The second
component counts fetch calls (zero when validation throws first). -/
def executeProxyRequest (request : ExecRequest)
    (proxyResponse : ProxyHttpResponse) (now : Nat) :
    Except ExecError HttpResponse × Nat :=
  if !validExecRequest request then (.error .validation, 0)
  else if !(200 ≤ proxyResponse.status && proxyResponse.status < 300) then
    let msg := match proxyResponse.body with
      | .errorBody m =>
        if m = "" then "Request failed with status " ++ toString proxyResponse.status
        else m
      | .envelope _ => "Request failed with status " ++ toString proxyResponse.status
    (.error (.proxy msg), 1)
  else
    match proxyResponse.body with
    | .envelope e =>
      (.ok
        { status := e.status
          statusText := e.statusText
          headers := e.headers.map (fun p => { key := p.1, value := p.2 })
          body := e.body
          responseTime := e.responseTime
          size := e.size
          timestamp := now }, 1)
    | .errorBody _ =>
      -- a 2xx proxy response always carries an envelope; reading the
      -- envelope fields of an error body would yield a malformed record
      (.error (.proxy "malformed proxy envelope"), 1)

/-- executeDirectRequest: validate, then fetch from the browser; a
completed fetch becomes a response record with measured latency and
UTF-8 byte size, a thrown fetch is re-raised as a network error with
the underlying message. -/
def executeDirectRequest (request : ExecRequest)
    (fetchResult : Except String TargetResponse) (elapsed now : Nat) :
    Except ExecError HttpResponse × Nat :=
  if !validExecRequest request then (.error .validation, 0)
  else
    match fetchResult with
    | .ok t =>
      (.ok
        { status := t.status
          statusText := t.statusText
          headers := (jsRecordOfList t.headers).map (fun p => { key := p.1, value := p.2 })
          body := t.body
          responseTime := elapsed
          size := utf8ByteLength t.body
          timestamp := now }, 1)
    | .error msg => (.error (.network msg), 1)

/-! ## Concrete scenario states used by the testable properties -/

/-- A fixed small response used by the cap scenario. -/
def demoResponse : HttpResponse :=
  { status := 200, statusText := "OK", headers := [], body := "ok"
    responseTime := 1, size := 2, timestamp := 0 }

/-- The i-th request of the cap scenario: all identical except for the
URL, so the 51 dedup keys are pairwise distinct. -/
def capDemoRequest (i : Nat) : HttpRequest :=
  { id := "r", name := "req", method := .GET
    url := "https://api.example.com/" ++ toString i
    headers := [], params := [], body := none, createdAt := 0, updatedAt := 0 }

/-- The i-th insertion of the cap scenario. -/
def capDemoEntry (i : Nat) : HistoryInput :=
  { requestId := "rid", request := capDemoRequest i, response := demoResponse }

/-- The history after 51 insertions with pairwise distinct keys. -/
def capDemoHistory : List RequestHistory :=
  (List.range 51).foldl
    (fun h i => addToHistory h (capDemoEntry i) ("id" ++ toString i) i) []

/-- A store state with a single tab whose id is "a". -/
def soloState : TabsState :=
  { tabs := [createDefaultTab "a"], activeTabId := some "a" }

/-- First payload of the tab-reuse scenario. -/
def reuseDemoData1 : TabPatch :=
  { name := some "one", url := some "https://api.example.com/1" }

/-- Second payload of the tab-reuse scenario. -/
def reuseDemoData2 : TabPatch :=
  { name := some "two", url := some "https://api.example.com/2" }

/-- A store state with a single fresh tab "t0". -/
def reuseDemoStart : TabsState :=
  { tabs := [createDefaultTab "t0"], activeTabId := some "t0" }

/-- Opening the same collection request twice with different data. -/
def reuseDemoState : TabsState :=
  openCollectionRequest
    (openCollectionRequest reuseDemoStart "c1:r1" reuseDemoData1 "t1")
    "c1:r1" reuseDemoData2 "t2"

/-! ## Helper lemmas -/

set_option maxRecDepth 10000

theorem countP_le_one_of_nodup_map {α β : Type} [DecidableEq β] (f : α → β) (c : β) :
    ∀ l : List α, (l.map f).Nodup → l.countP (fun x => f x == c) ≤ 1 := by
  intro l
  induction l with
  | nil => intro; simp
  | cons x t ih =>
    intro hN
    rw [List.map_cons, List.nodup_cons] at hN
    rw [List.countP_cons]
    by_cases hx : (f x == c) = true
    · have hfx : f x = c := eq_of_beq hx
      have h0 : t.countP (fun x => f x == c) = 0 := by
        rw [List.countP_eq_zero]
        intro a ha hp
        exact hN.1 (hfx ▸ (eq_of_beq hp) ▸ List.mem_map_of_mem f ha)
      simp [hx, h0]
    · simp only [hx, if_false, Nat.add_zero]
      exact ih hN.2

theorem eraseP_no_match_of_nodup_map {α β : Type} [DecidableEq β] (f : α → β) (c : β) :
    ∀ l : List α, (l.map f).Nodup →
      ∀ y ∈ l.eraseP (fun x => f x == c), (f y == c) = false := by
  intro l
  induction l with
  | nil => intro _ y hy; simp [List.eraseP] at hy
  | cons x t ih =>
    intro hN y hy
    rw [List.map_cons, List.nodup_cons] at hN
    rw [List.eraseP_cons] at hy
    by_cases hx : (f x == c) = true
    · simp only [hx, cond_true] at hy
      have hfx : f x = c := eq_of_beq hx
      rw [beq_eq_false_iff_ne]
      intro hyc
      exact hN.1 (hfx ▸ hyc ▸ List.mem_map_of_mem f hy)
    · simp only [Bool.not_eq_true] at hx
      simp only [hx, cond_false, List.mem_cons] at hy
      rcases hy with rfl | hy
      · exact hx
      · exact ih hN.2 y hy

theorem take50_cons (x : RequestHistory) (l : List RequestHistory) :
    List.take 50 (x :: l) = x :: List.take 49 l := rfl

theorem addToHistory_of_find_some (history : List RequestHistory) (entry : HistoryInput)
    (newId : String) (now : Nat) (ex : RequestHistory)
    (hfind : history.find? (historyKeyMatches (buildHistoryKey entry.request)) = some ex) :
    addToHistory history entry newId now =
      ({ id := ex.id, requestId := entry.requestId, request := entry.request,
         response := truncateResponseBody entry.response, timestamp := now } ::
        history.eraseP (historyKeyMatches (buildHistoryKey entry.request))).take 50 := by
  unfold addToHistory
  dsimp only
  rw [hfind]

theorem addToHistory_of_find_none (history : List RequestHistory) (entry : HistoryInput)
    (newId : String) (now : Nat)
    (hfind : history.find? (historyKeyMatches (buildHistoryKey entry.request)) = none) :
    addToHistory history entry newId now =
      ({ id := newId, requestId := entry.requestId, request := entry.request,
         response := truncateResponseBody entry.response, timestamp := now } ::
        history).take 50 := by
  unfold addToHistory
  dsimp only
  rw [hfind]

/-- C5: after every call to addToHistory the in-memory history has
length at most 50; and inserting 51 entries with pairwise distinct
dedup keys leaves exactly the 50 most recent, most-recent-first. -/
theorem addToHistory_cap :
    (∀ (history : List RequestHistory) (entry : HistoryInput) (newId : String) (now : Nat),
      (addToHistory history entry newId now).length ≤ 50) ∧
    capDemoHistory.length = 50 ∧
    capDemoHistory.map (fun e => e.request.url) =
      ((List.range 51).reverse.take 50).map
        (fun i => "https://api.example.com/" ++ toString i) := by
  refine ⟨?_, by decide, by decide⟩
  intro history entry newId now
  cases hfind : history.find? (historyKeyMatches (buildHistoryKey entry.request)) with
  | some ex =>
    rw [addToHistory_of_find_some history entry newId now ex hfind, List.length_take]
    omega
  | none =>
    rw [addToHistory_of_find_none history entry newId now hfind, List.length_take]
    omega

/-- C6: an over-long response body is stored truncated to 10240 units
plus the fixed 28-character marker; the store only reads the caller's
response record to build a fresh truncated copy, so the live record
stays untruncated. -/
theorem addToHistory_truncates_body (history : List RequestHistory) (entry : HistoryInput)
    (newId : String) (now : Nat) (hbig : entry.response.body.length > 10240) :
    ∃ stored, (addToHistory history entry newId now).head? = some stored ∧
      stored.response = { entry.response with
        body := String.mk (entry.response.body.data.take 10240) ++
          "\n... [truncated for storage]" } ∧
      stored.response.body.length = 10240 + 28 := by
  have htr : truncateResponseBody entry.response = { entry.response with
      body := String.mk (entry.response.body.data.take 10240) ++
        "\n... [truncated for storage]" } := by
    unfold truncateResponseBody
    dsimp only
    rw [if_pos (by omega)]
  have hdata : 10240 ≤ entry.response.body.data.length := le_of_lt hbig
  have hlen : (String.mk (entry.response.body.data.take 10240) ++
      "\n... [truncated for storage]").length = 10240 + 28 := by
    rw [String.length_append, String.length_mk, List.length_take, Nat.min_eq_left hdata]
    rfl
  cases hfind : history.find? (historyKeyMatches (buildHistoryKey entry.request)) with
  | some ex =>
    rw [addToHistory_of_find_some history entry newId now ex hfind, take50_cons]
    refine ⟨_, rfl, htr, ?_⟩
    show (truncateResponseBody entry.response).body.length = 10240 + 28
    rw [htr]
    exact hlen
  | none =>
    rw [addToHistory_of_find_none history entry newId now hfind, take50_cons]
    refine ⟨_, rfl, htr, ?_⟩
    show (truncateResponseBody entry.response).body.length = 10240 + 28
    rw [htr]
    exact hlen

/-- Witness for C6 at a 20000-character body. -/
theorem addToHistory_truncates_body_witness :
    ∃ stored,
      (addToHistory []
        { requestId := "rid", request := capDemoRequest 0,
          response := { demoResponse with body := String.mk (List.replicate 20000 'a') } }
        "t" 7).head? = some stored ∧
      stored.response = { ({ demoResponse with
          body := String.mk (List.replicate 20000 'a') } : HttpResponse) with
        body := String.mk ((String.mk (List.replicate 20000 'a')).data.take 10240) ++
          "\n... [truncated for storage]" } ∧
      stored.response.body.length = 10240 + 28 :=
  addToHistory_truncates_body [] _ "t" 7
    (by show (String.mk (List.replicate 20000 'a')).length > 10240
        rw [String.length_mk, List.length_replicate]
        omega)

/-- C10: when the dedup key matches an existing entry, the stored
replacement keeps that entry's id and takes request, requestId,
truncated response and timestamp from the new input; a fresh id is used
only when no entry carries the key. -/
theorem addToHistory_preserves_id (history : List RequestHistory) (entry : HistoryInput)
    (newId : String) (now : Nat) :
    (∀ ex, history.find? (historyKeyMatches (buildHistoryKey entry.request)) = some ex →
      (addToHistory history entry newId now).head? = some
        { id := ex.id, requestId := entry.requestId, request := entry.request,
          response := truncateResponseBody entry.response, timestamp := now }) ∧
    (history.find? (historyKeyMatches (buildHistoryKey entry.request)) = none →
      (addToHistory history entry newId now).head? = some
        { id := newId, requestId := entry.requestId, request := entry.request,
          response := truncateResponseBody entry.response, timestamp := now }) := by
  constructor
  · intro ex hex
    rw [addToHistory_of_find_some history entry newId now ex hex, take50_cons,
      List.head?_cons]
  · intro hnone
    rw [addToHistory_of_find_none history entry newId now hnone, take50_cons,
      List.head?_cons]

/-- Witness for C10: replacing the sole entry keeps its id "old". -/
theorem addToHistory_preserves_id_witness :
    (addToHistory
      [{ id := "old", requestId := "oldrid", request := capDemoRequest 0,
         response := demoResponse, timestamp := 0 }]
      (capDemoEntry 0) "newid" 9).head? = some
      { id := "old", requestId := (capDemoEntry 0).requestId,
        request := (capDemoEntry 0).request,
        response := truncateResponseBody (capDemoEntry 0).response, timestamp := 9 } :=
  (addToHistory_preserves_id _ (capDemoEntry 0) "newid" 9).1
    { id := "old", requestId := "oldrid", request := capDemoRequest 0,
      response := demoResponse, timestamp := 0 } (by decide)

/-- C1: on a dedup-key hit the history afterwards holds exactly one
entry with that key, at the front, built from the new input (and the
matched entry's id); on a miss the fresh entry is prepended at the
front. -/
theorem addToHistory_dedup (history : List RequestHistory) (entry : HistoryInput)
    (newId : String) (now : Nat)
    (hkeys : (history.map (fun e => buildHistoryKey e.request)).Nodup) :
    (∀ ex, history.find? (historyKeyMatches (buildHistoryKey entry.request)) = some ex →
      ((addToHistory history entry newId now).countP
          (historyKeyMatches (buildHistoryKey entry.request)) = 1 ∧
        (addToHistory history entry newId now).head? = some
          { id := ex.id, requestId := entry.requestId, request := entry.request,
            response := truncateResponseBody entry.response, timestamp := now })) ∧
    (history.find? (historyKeyMatches (buildHistoryKey entry.request)) = none →
      (addToHistory history entry newId now).head? = some
        { id := newId, requestId := entry.requestId, request := entry.request,
          response := truncateResponseBody entry.response, timestamp := now }) := by
  constructor
  · intro ex hex
    refine ⟨?_, (addToHistory_preserves_id history entry newId now).1 ex hex⟩
    rw [addToHistory_of_find_some history entry newId now ex hex, take50_cons,
      List.countP_cons]
    have hupd : historyKeyMatches (buildHistoryKey entry.request)
        { id := ex.id, requestId := entry.requestId, request := entry.request,
          response := truncateResponseBody entry.response, timestamp := now } = true := by
      simp [historyKeyMatches]
    have h0 : ((history.eraseP
          (historyKeyMatches (buildHistoryKey entry.request))).take 49).countP
        (historyKeyMatches (buildHistoryKey entry.request)) = 0 := by
      rw [List.countP_eq_zero]
      intro a ha
      have ha2 : a ∈ List.eraseP
          (fun x => buildHistoryKey x.request == buildHistoryKey entry.request) history :=
        List.mem_of_mem_take ha
      have hno := eraseP_no_match_of_nodup_map (fun e => buildHistoryKey e.request)
        (buildHistoryKey entry.request) history hkeys a ha2
      simp only [historyKeyMatches]
      simp [hno]
    rw [h0, hupd]
    simp
  · exact (addToHistory_preserves_id history entry newId now).2

/-- Witness for C1 on a one-entry history hit by the same key. -/
theorem addToHistory_dedup_witness :
    ((addToHistory
      [{ id := "old", requestId := "oldrid", request := capDemoRequest 0,
         response := demoResponse, timestamp := 0 }]
      (capDemoEntry 0) "newid" 9).countP
        (historyKeyMatches (buildHistoryKey (capDemoEntry 0).request)) = 1 ∧
      (addToHistory
        [{ id := "old", requestId := "oldrid", request := capDemoRequest 0,
           response := demoResponse, timestamp := 0 }]
        (capDemoEntry 0) "newid" 9).head? = some
        { id := "old", requestId := (capDemoEntry 0).requestId,
          request := (capDemoEntry 0).request,
          response := truncateResponseBody (capDemoEntry 0).response, timestamp := 9 }) :=
  (addToHistory_dedup _ (capDemoEntry 0) "newid" 9 (by decide)).1
    { id := "old", requestId := "oldrid", request := capDemoRequest 0,
      response := demoResponse, timestamp := 0 } (by decide)

/-- C2: when the outbound target fetch completes, the proxy's own HTTP
response is 200 regardless of the target's status, the target's status
sits in the envelope's status field, and the proxy-mode executor turns
that envelope into a response record with the target's status. -/
theorem proxy_status_passthrough (req : ExecRequest) (t : TargetResponse)
    (elapsed now : Nat)
    (hm : httpMethodStrings.contains req.method = true)
    (hu : (jsUrlParse req.url).isSome = true) :
    (proxyPost (proxyBodyOfExec req) (.ok t) elapsed).status = 200 ∧
    (∃ e, (proxyPost (proxyBodyOfExec req) (.ok t) elapsed).body = .envelope e ∧
      e.status = t.status) ∧
    (∃ resp, executeProxyRequest req (proxyPost (proxyBodyOfExec req) (.ok t) elapsed) now =
      (.ok resp, 1) ∧ resp.status = t.status) := by
  have hne : req.url ≠ "" := by
    intro h
    rw [h] at hu
    simp [jsUrlParse, splitFirstChar, String.data] at hu
  have hpr : proxyPost (proxyBodyOfExec req) (.ok t) elapsed =
      { status := 200
        body := .envelope
          { status := t.status
            statusText := t.statusText
            headers := jsRecordOfList t.headers
            body := t.body
            responseTime := elapsed
            size := utf8ByteLength t.body } } := by
    unfold proxyPost proxyBodyOfExec
    dsimp only
    rw [if_neg hne]
  rw [hpr]
  have hvalid : validExecRequest req = true := by
    unfold validExecRequest
    rw [hm, hu]
    rfl
  refine ⟨rfl, ⟨_, rfl, ?_⟩, ?_⟩
  · rfl
  refine ⟨{ status := t.status
            statusText := t.statusText
            headers := (jsRecordOfList t.headers).map (fun p => { key := p.1, value := p.2 })
            body := t.body
            responseTime := elapsed
            size := utf8ByteLength t.body
            timestamp := now }, ?_, rfl⟩
  unfold executeProxyRequest
  rw [hvalid]
  rfl

/-- Witness for C2 at a 404 target. -/
theorem proxy_status_passthrough_witness :
    (proxyPost (proxyBodyOfExec
        { method := "GET", url := "https://api.example.com/x",
          headers := none, body := none }) (.ok
        { status := 404, statusText := "Not Found", headers := [], body := "nope" })
        12).status = 200 ∧
    (∃ e, (proxyPost (proxyBodyOfExec
        { method := "GET", url := "https://api.example.com/x",
          headers := none, body := none }) (.ok
        { status := 404, statusText := "Not Found", headers := [], body := "nope" })
        12).body = .envelope e ∧ e.status = 404) ∧
    (∃ resp, executeProxyRequest
      { method := "GET", url := "https://api.example.com/x",
        headers := none, body := none }
      (proxyPost (proxyBodyOfExec
        { method := "GET", url := "https://api.example.com/x",
          headers := none, body := none }) (.ok
        { status := 404, statusText := "Not Found", headers := [], body := "nope" })
        12) 3 = (.ok resp, 1) ∧ resp.status = 404) :=
  proxy_status_passthrough
    { method := "GET", url := "https://api.example.com/x",
      headers := none, body := none }
    { status := 404, statusText := "Not Found", headers := [], body := "nope" }
    12 3 (by decide) (by decide)

/-- C7: an input with a method outside the seven verbs or a url the URL
constructor rejects makes both executors raise the validation error
before any fetch: the fetch-call count of the outcome is zero. -/
theorem executor_validation_short_circuit (req : ExecRequest)
    (hbad : httpMethodStrings.contains req.method = false ∨ jsUrlParse req.url = none)
    (fetchResult : Except String TargetResponse)
    (proxyResponse : ProxyHttpResponse) (elapsed now : Nat) :
    executeDirectRequest req fetchResult elapsed now = (.error .validation, 0) ∧
    executeProxyRequest req proxyResponse now = (.error .validation, 0) := by
  have hvalid : validExecRequest req = false := by
    unfold validExecRequest
    rcases hbad with h | h
    · rw [h]
      rfl
    · rw [h]
      simp
  constructor
  · unfold executeDirectRequest
    rw [hvalid]
    rfl
  · unfold executeProxyRequest
    rw [hvalid]
    rfl

/-- Witness for C7 with method FOO. -/
theorem executor_validation_short_circuit_witness :
    executeDirectRequest
      { method := "FOO", url := "https://api.example.com/x",
        headers := none, body := none }
      (.ok { status := 200, statusText := "OK", headers := [], body := "" }) 1 2 =
      (.error .validation, 0) ∧
    executeProxyRequest
      { method := "FOO", url := "https://api.example.com/x",
        headers := none, body := none }
      { status := 200, body := .errorBody "x" } 2 = (.error .validation, 0) :=
  executor_validation_short_circuit
    { method := "FOO", url := "https://api.example.com/x",
      headers := none, body := none }
    (Or.inl (by decide))
    (.ok { status := 200, statusText := "OK", headers := [], body := "" })
    { status := 200, body := .errorBody "x" } 1 2

theorem findIdx?_shift {α : Type} (p : α → Bool) (l : List α) (k : Nat) :
    l.findIdx? p k = (l.findIdx? p 0).map (fun j => j + k) := by
  induction l generalizing k with
  | nil => simp [List.findIdx?]
  | cons x t ih =>
    rw [List.findIdx?_cons, List.findIdx?_cons]
    by_cases hx : p x = true
    · simp [hx]
    · simp only [hx, if_false]
      rw [ih (k + 1), ih 1]
      cases t.findIdx? p 0
      · simp
      · simp
        omega

theorem findIdx?_of_getElem? {α β : Type} [DecidableEq β] (f : α → β) (c : β) :
    ∀ (l : List α) (i : Nat), (l.map f).Nodup → (l[i]?).map f = some c →
      l.findIdx? (fun x => f x == c) = some i := by
  intro l
  induction l with
  | nil => intro i _ hget; simp at hget
  | cons x t ih =>
    intro i hN hget
    rw [List.map_cons, List.nodup_cons] at hN
    rw [List.findIdx?_cons]
    cases i with
    | zero =>
      simp only [List.getElem?_cons_zero, Option.map_some', Option.some_inj] at hget
      rw [if_pos (beq_iff_eq.mpr hget)]
    | succ j =>
      rw [List.getElem?_cons_succ] at hget
      rw [Option.map_eq_some'] at hget
      obtain ⟨a, ha, hfa⟩ := hget
      have hmem : c ∈ t.map f :=
        hfa ▸ List.mem_map_of_mem f (List.getElem?_mem ha)
      have hx : (f x == c) = false := by
        rw [beq_eq_false_iff_ne]
        intro he
        exact hN.1 (he ▸ hmem)
      rw [if_neg (by simp [hx]), findIdx?_shift,
        ih j hN.2 (by rw [ha, Option.map_some', hfa])]
      rfl

theorem filter_not_eq_eraseIdx {α : Type} (p : α → Bool) :
    ∀ (l : List α) (i : Nat), l.countP p ≤ 1 → l.findIdx? p = some i →
      l.filter (fun a => !(p a)) = l.eraseIdx i := by
  intro l
  induction l with
  | nil => intro i _ hfind; simp [List.findIdx?] at hfind
  | cons x t ih =>
    intro i hcount hfind
    rw [List.findIdx?_cons] at hfind
    rw [List.countP_cons] at hcount
    by_cases hx : p x = true
    · rw [if_pos hx] at hfind
      have h0i : (0 : Nat) = i := Option.some_inj.mp hfind
      subst h0i
      have h0 : t.countP p = 0 := by
        rw [if_pos hx] at hcount
        omega
      have hfeq : List.filter (fun a => !(p a)) t = t :=
        List.filter_eq_self.mpr (fun a ha => by
          have := List.countP_eq_zero.mp h0 a ha
          simp [this])
      rw [List.filter_cons_of_neg (by simp [hx]), hfeq]
      rfl
    · rw [if_neg hx, findIdx?_shift] at hfind
      cases hf : t.findIdx? p 0 with
      | none =>
        rw [hf] at hfind
        simp at hfind
      | some j =>
        rw [hf] at hfind
        simp only [Option.map_some', Option.some_inj] at hfind
        have hij : j + 1 = i := by omega
        subst hij
        have hc : t.countP p ≤ 1 := by
          rw [if_neg hx] at hcount
          omega
        rw [List.filter_cons_of_pos (by simp [hx]), List.eraseIdx_cons_succ, ih j hc hf]

/-- C3: the tab list never becomes empty: removing the sole tab
replaces it with a fresh default tab (GET, empty url/headers/params, no
body, auth none, clean), and removing an active tab activates the
preceding tab, or the first remaining tab when none precedes. -/
theorem removeTab_keeps_tabs (s : TabsState) (id freshId : String)
    (hne : s.tabs ≠ [])
    (hids : (s.tabs.map (fun t => t.id)).Nodup) :
    (removeTab s id freshId).tabs ≠ [] ∧
    (s.tabs.length = 1 → removeTab s id freshId =
      { tabs := [createDefaultTab freshId], activeTabId := some freshId }) ∧
    ((createDefaultTab freshId).method = .GET ∧ (createDefaultTab freshId).url = "" ∧
      (createDefaultTab freshId).headers = [] ∧ (createDefaultTab freshId).params = [] ∧
      (createDefaultTab freshId).body = none ∧
      (createDefaultTab freshId).auth.type = .none ∧
      (createDefaultTab freshId).isDirty = false) ∧
    (∀ i, 2 ≤ s.tabs.length → (s.tabs[i]?).map (fun t => t.id) = some id →
      s.activeTabId = some id →
      (removeTab s id freshId).activeTabId =
        (if i = 0 then s.tabs[1]? else s.tabs[i - 1]?).map (fun t => t.id)) := by
  have hcnt : s.tabs.countP (fun t => t.id == id) ≤ 1 :=
    countP_le_one_of_nodup_map (fun t => t.id) id s.tabs hids
  refine ⟨?_, ?_, ⟨rfl, rfl, rfl, rfl, rfl, rfl, rfl⟩, ?_⟩
  · by_cases hlen : s.tabs.length = 1
    · unfold removeTab
      dsimp only
      rw [if_pos hlen]
      simp
    · have hlen2 : 2 ≤ s.tabs.length := by
        have := List.length_pos.mpr hne
        omega
      unfold removeTab
      dsimp only
      rw [if_neg hlen]
      intro hnil
      have hall : ∀ a ∈ s.tabs, (a.id == id) = true := by
        intro a ha
        cases h : (a.id == id) with
        | true => rfl
        | false =>
          exact absurd (bne_iff_ne.mpr (beq_eq_false_iff_ne.mp h))
            (List.filter_eq_nil_iff.mp hnil a ha)
      have := List.countP_eq_length.mpr hall
      omega
  · intro hlen
    unfold removeTab
    dsimp only
    rw [if_pos hlen]
    rfl
  · intro i hlen2 hget hact
    have hfind : s.tabs.findIdx? (fun t => t.id == id) = some i :=
      findIdx?_of_getElem? (fun t => t.id) id s.tabs i hids hget
    have hfe : s.tabs.filter (fun t => !(t.id == id)) = s.tabs.eraseIdx i :=
      filter_not_eq_eraseIdx (fun t => t.id == id) s.tabs i hcnt hfind
    unfold removeTab jsFindIndex
    dsimp only
    rw [hfind]
    dsimp only
    rw [if_neg (by omega : ¬ s.tabs.length = 1), if_pos hact]
    simp only [bne]
    rw [hfe]
    rcases Nat.eq_zero_or_pos i with hi | hi
    · subst hi
      rw [if_neg (by norm_num), if_pos rfl, List.get?_eq_getElem?,
        List.getElem?_eraseIdx]
      simp
    · rw [if_pos (by exact_mod_cast hi), if_neg (by omega),
        show ((i : Int) - 1).toNat = i - 1 by omega, List.get?_eq_getElem?,
        List.getElem?_eraseIdx, if_pos (by omega)]

/-- Witness for C3 at the single-tab state. -/
theorem removeTab_keeps_tabs_witness :
    (removeTab soloState "a" "fresh").tabs ≠ [] ∧
    (soloState.tabs.length = 1 → removeTab soloState "a" "fresh" =
      { tabs := [createDefaultTab "fresh"], activeTabId := some "fresh" }) ∧
    ((createDefaultTab "fresh").method = .GET ∧ (createDefaultTab "fresh").url = "" ∧
      (createDefaultTab "fresh").headers = [] ∧ (createDefaultTab "fresh").params = [] ∧
      (createDefaultTab "fresh").body = none ∧
      (createDefaultTab "fresh").auth.type = .none ∧
      (createDefaultTab "fresh").isDirty = false) ∧
    (∀ i, 2 ≤ soloState.tabs.length → (soloState.tabs[i]?).map (fun t => t.id) = some "a" →
      soloState.activeTabId = some "a" →
      (removeTab soloState "a" "fresh").activeTabId =
        (if i = 0 then soloState.tabs[1]? else soloState.tabs[i - 1]?).map (fun t => t.id)) :=
  removeTab_keeps_tabs soloState "a" "fresh" (by decide) (by decide)

/-- Counterexample to C9 as stated: with exactly one tab open (id "a"),
removing the nonexistent id "b" is not a no-op: the single-tab branch
runs before the id is looked up and replaces the tab. -/
theorem removeTab_missing_id_not_noop :
    removeTab soloState "b" "fresh" ≠ soloState ∧
    (removeTab soloState "b" "fresh").tabs ≠ soloState.tabs := by
  constructor
  · intro h
    have := congrArg (fun st => st.tabs) h
    simp [removeTab, soloState, createDefaultTab] at this
  · intro h
    simp [removeTab, soloState, createDefaultTab] at h

theorem map_eq_self_of_eq {α : Type} (f : α → α) :
    ∀ l : List α, (∀ a ∈ l, f a = a) → l.map f = l := by
  intro l
  induction l with
  | nil => intro _; rfl
  | cons x t ih =>
    intro h
    rw [List.map_cons, h x (by simp), ih (fun a ha => h a (by simp [ha]))]

/-- C9 amended: updateTab with an id matching no tab is always a no-op;
removeTab with such an id is a no-op provided at least two tabs are
open and the active pointer is not the missing id (with a single tab
open, removeTab replaces it with a fresh default regardless of the
id). -/
theorem missing_id_noop (s : TabsState) (id : String) (updates : TabPatch)
    (markDirty : Bool) (freshId : String)
    (hmiss : ∀ t ∈ s.tabs, t.id ≠ id) :
    updateTab s id updates markDirty = s ∧
    (2 ≤ s.tabs.length → s.activeTabId ≠ some id → removeTab s id freshId = s) := by
  constructor
  · unfold updateTab
    have hmap : s.tabs.map (fun tab =>
        if tab.id == id then
          let nextIsDirty := match updates.isDirty with
            | some b => b
            | none => if markDirty then true else tab.isDirty
          { applyPatch tab { updates with isDirty := none } with isDirty := nextIsDirty }
        else tab) = s.tabs := by
      apply map_eq_self_of_eq
      intro t ht
      rw [if_neg (by simp [hmiss t ht])]
    rw [hmap]
  · intro hlen hact
    unfold removeTab
    dsimp only
    rw [if_neg (by omega)]
    have hfe : s.tabs.filter (fun t => t.id != id) = s.tabs := by
      apply List.filter_eq_self.mpr
      intro t ht
      exact bne_iff_ne.mpr (hmiss t ht)
    rw [hfe, if_neg (by intro h; exact hact h)]

/-- Witness for the amended C9 on a two-tab state. -/
theorem missing_id_noop_witness :
    updateTab
      { tabs := [createDefaultTab "a", createDefaultTab "b"], activeTabId := some "a" }
      "zzz" { url := some "https://x/" } true =
      { tabs := [createDefaultTab "a", createDefaultTab "b"], activeTabId := some "a" } ∧
    (2 ≤ (TabsState.tabs
        { tabs := [createDefaultTab "a", createDefaultTab "b"],
          activeTabId := some "a" }).length →
      ({ tabs := [createDefaultTab "a", createDefaultTab "b"],
         activeTabId := some "a" } : TabsState).activeTabId ≠ some "zzz" →
      removeTab
        { tabs := [createDefaultTab "a", createDefaultTab "b"], activeTabId := some "a" }
        "zzz" "fresh" =
        { tabs := [createDefaultTab "a", createDefaultTab "b"], activeTabId := some "a" }) :=
  missing_id_noop
    { tabs := [createDefaultTab "a", createDefaultTab "b"], activeTabId := some "a" }
    "zzz" { url := some "https://x/" } true "fresh" (by decide)

theorem openCollection_map_props (k : String) (d : TabPatch) (ex : RequestTabData) :
    ∀ l : List RequestTabData, (l.map (fun t => t.id)).Nodup →
      l.countP (taggedWith k) ≤ 1 →
      l.find? (taggedWith k) = some ex →
      ((l.map (fun tab => if tab.id == ex.id then
          { applyPatch tab d with collectionRequestId := some k, isDirty := false }
        else tab)).countP (taggedWith k) = 1 ∧
       (l.map (fun tab => if tab.id == ex.id then
          { applyPatch tab d with collectionRequestId := some k, isDirty := false }
        else tab)).find? (taggedWith k) = some
          { applyPatch ex d with collectionRequestId := some k, isDirty := false }) := by
  intro l
  induction l with
  | nil => intro _ _ hfind; simp at hfind
  | cons x t ih =>
    intro hN hc hfind
    rw [List.map_cons, List.nodup_cons] at hN
    rw [List.countP_cons] at hc
    by_cases hpx : taggedWith k x = true
    · have hxex : x = ex := by
        rw [List.find?_cons_of_pos t hpx] at hfind
        exact Option.some_inj.mp hfind
      subst hxex
      have hres : ∀ y ∈ t, (fun tab => if tab.id == x.id then
          ({ applyPatch tab d with collectionRequestId := some k, isDirty := false } :
            RequestTabData)
        else tab) y = y := by
        intro y hy
        have hyx : (y.id == x.id) = false := by
          rw [beq_eq_false_iff_ne]
          intro he
          exact hN.1 (he ▸ List.mem_map_of_mem (fun t => t.id) hy)
        simp only [hyx]
        rfl
      have hmap : t.map (fun tab => if tab.id == x.id then
          ({ applyPatch tab d with collectionRequestId := some k, isDirty := false } :
            RequestTabData)
        else tab) = t := map_eq_self_of_eq _ t hres
      have ht0 : t.countP (taggedWith k) = 0 := by
        rw [if_pos hpx] at hc
        omega
      have hupd : taggedWith k
          ({ applyPatch x d with collectionRequestId := some k, isDirty := false } :
            RequestTabData) = true := by
        simp [taggedWith]
      rw [List.map_cons, beq_self_eq_true, if_pos rfl, hmap]
      constructor
      · rw [List.countP_cons, ht0, if_pos hupd]
      · rw [List.find?_cons_of_pos t hupd]
    · have hfind' : t.find? (taggedWith k) = some ex := by
        rw [List.find?_cons_of_neg t hpx] at hfind
        exact hfind
      have hexm : ex ∈ t := List.mem_of_find?_eq_some hfind'
      have hxex : (x.id == ex.id) = false := by
        rw [beq_eq_false_iff_ne]
        intro he
        exact hN.1 (he ▸ List.mem_map_of_mem (fun t => t.id) hexm)
      have hc' : t.countP (taggedWith k) ≤ 1 := by
        rw [if_neg hpx] at hc
        omega
      obtain ⟨ih1, ih2⟩ := ih hN.2 hc' hfind'
      rw [List.map_cons, hxex, if_neg (by simp)]
      constructor
      · rw [List.countP_cons, ih1, if_neg hpx]
      · rw [List.find?_cons_of_neg _ hpx, ih2]

/-- C8: opening a collection request reuses the tab already linked to
it, overwriting its fields with the data, clearing dirty and activating
it, so a second open with the same link leaves exactly one tab with
that link, carrying the second call's data; with no linked tab a fresh
linked clean tab is appended and activated. -/
theorem openCollectionRequest_reuse (s : TabsState) (k freshId : String) (d : TabPatch)
    (hids : (s.tabs.map (fun t => t.id)).Nodup)
    (hlink : s.tabs.countP (taggedWith k) ≤ 1) :
    (∀ ex, s.tabs.find? (taggedWith k) = some ex →
      ((openCollectionRequest s k d freshId).tabs.length = s.tabs.length ∧
       (openCollectionRequest s k d freshId).activeTabId = some ex.id ∧
       (openCollectionRequest s k d freshId).tabs.countP (taggedWith k) = 1 ∧
       (openCollectionRequest s k d freshId).tabs.find? (taggedWith k) = some
         { applyPatch ex d with collectionRequestId := some k, isDirty := false })) ∧
    (s.tabs.find? (taggedWith k) = none →
      (openCollectionRequest s k d freshId).tabs = s.tabs ++
        [{ applyPatch (createDefaultTab freshId) d with
           collectionRequestId := some k, isDirty := false }] ∧
      (openCollectionRequest s k d freshId).activeTabId = some freshId) ∧
    (reuseDemoState.tabs.countP (taggedWith "c1:r1") = 1 ∧
     (reuseDemoState.tabs.find? (taggedWith "c1:r1")).map
       (fun t => (t.name, t.url)) = some ("two", "https://api.example.com/2")) := by
  refine ⟨?_, ?_, by decide, by decide⟩
  · intro ex hfind
    have hocr : openCollectionRequest s k d freshId =
        { tabs := s.tabs.map (fun tab => if tab.id == ex.id then
            { applyPatch tab d with collectionRequestId := some k, isDirty := false }
          else tab)
          activeTabId := some ex.id } := by
      unfold openCollectionRequest
      rw [hfind]
    obtain ⟨h1, h2⟩ := openCollection_map_props k d ex s.tabs hids hlink hfind
    rw [hocr]
    exact ⟨by simp, rfl, h1, h2⟩
  · intro hnone
    have hocr : openCollectionRequest s k d freshId =
        { tabs := s.tabs ++ [{ applyPatch (createDefaultTab freshId) d with
            collectionRequestId := some k, isDirty := false }]
          activeTabId := some ({ applyPatch (createDefaultTab freshId) d with
            collectionRequestId := some k, isDirty := false } : RequestTabData).id } := by
      unfold openCollectionRequest
      rw [hnone]
    rw [hocr]
    exact ⟨rfl, rfl⟩

/-- Witness for C8: opening "c1:r1" on a fresh single-tab store appends
a linked clean tab and activates it; the two-call scenario holds. -/
theorem openCollectionRequest_reuse_witness :
    (∀ ex, reuseDemoStart.tabs.find? (taggedWith "c1:r1") = some ex →
      ((openCollectionRequest reuseDemoStart "c1:r1" reuseDemoData1 "t1").tabs.length =
        reuseDemoStart.tabs.length ∧
       (openCollectionRequest reuseDemoStart "c1:r1" reuseDemoData1 "t1").activeTabId =
        some ex.id ∧
       (openCollectionRequest reuseDemoStart "c1:r1" reuseDemoData1 "t1").tabs.countP
         (taggedWith "c1:r1") = 1 ∧
       (openCollectionRequest reuseDemoStart "c1:r1" reuseDemoData1 "t1").tabs.find?
         (taggedWith "c1:r1") = some
           { applyPatch ex reuseDemoData1 with
             collectionRequestId := some "c1:r1", isDirty := false })) ∧
    (reuseDemoStart.tabs.find? (taggedWith "c1:r1") = none →
      (openCollectionRequest reuseDemoStart "c1:r1" reuseDemoData1 "t1").tabs =
        reuseDemoStart.tabs ++
        [{ applyPatch (createDefaultTab "t1") reuseDemoData1 with
           collectionRequestId := some "c1:r1", isDirty := false }] ∧
      (openCollectionRequest reuseDemoStart "c1:r1" reuseDemoData1 "t1").activeTabId =
        some "t1") ∧
    (reuseDemoState.tabs.countP (taggedWith "c1:r1") = 1 ∧
     (reuseDemoState.tabs.find? (taggedWith "c1:r1")).map
       (fun t => (t.name, t.url)) = some ("two", "https://api.example.com/2")) :=
  openCollectionRequest_reuse reuseDemoStart "c1:r1" "t1" reuseDemoData1
    (by decide) (by decide)

/-! ## Round-trip of the url-encoded codec -/

theorem hexDigitChar_facts : ∀ m : Nat, m < 16 →
    ((hexDigitChar m).toNat = (if m < 10 then 48 + m else 55 + m) ∧
     isHexDigit (hexDigitChar m) = true ∧
     hexDigitVal (hexDigitChar m) = m ∧
     hexDigitChar m ≠ '+' ∧ hexDigitChar m ≠ '&' ∧ hexDigitChar m ≠ '=' ∧
     hexDigitChar m ≠ '#' ∧ hexDigitChar m ≠ '?') := by
  intro m hm
  interval_cases m <;> exact ⟨rfl, rfl, rfl, by decide, by decide, by decide,
    by decide, by decide⟩

theorem utf8Char_bytes_lt (c : Char) : ∀ b ∈ utf8Char c, b < 256 := by
  have hv : c.toNat < 1114112 := by
    have := c.valid
    rcases this with h | h
    · exact lt_trans h (by norm_num)
    · exact h.2
  intro b hb
  unfold utf8Char at hb
  dsimp only at hb
  by_cases h1 : c.toNat < 128
  · rw [if_pos h1] at hb
    simp at hb
    omega
  · rw [if_neg h1] at hb
    by_cases h2 : c.toNat < 2048
    · rw [if_pos h2] at hb
      simp at hb
      rcases hb with rfl | rfl <;> omega
    · rw [if_neg h2] at hb
      by_cases h3 : c.toNat < 65536
      · rw [if_pos h3] at hb
        simp at hb
        rcases hb with rfl | rfl | rfl <;> omega
      · rw [if_neg h3] at hb
        simp at hb
        rcases hb with rfl | rfl | rfl | rfl <;> omega

theorem utf8DecodeLossy_utf8Char (c : Char) (bs : List Nat) :
    utf8DecodeLossy (utf8Char c ++ bs) = c :: utf8DecodeLossy bs := by
  have hval : c.toNat < 55296 ∨ (57343 < c.toNat ∧ c.toNat < 1114112) := c.valid
  have hofn : Char.ofNat c.toNat = c := Char.ofNat_toNat c
  set n := c.toNat with hn
  unfold utf8Char
  dsimp only
  by_cases h1 : n < 128
  · rw [if_pos h1]
    show utf8DecodeLossy (n :: bs) = c :: utf8DecodeLossy bs
    conv_lhs => unfold utf8DecodeLossy
    rw [if_pos h1, hofn]
  · rw [if_neg h1]
    by_cases h2 : n < 2048
    · rw [if_pos h2]
      show utf8DecodeLossy ((192 + n / 64) :: (128 + n % 64) :: bs) =
        c :: utf8DecodeLossy bs
      conv_lhs => unfold utf8DecodeLossy
      rw [if_neg (by omega), if_neg (by omega), if_pos (by omega)]
      dsimp only
      rw [if_pos (by simp only [isCont, Bool.and_eq_true, decide_eq_true_eq]; omega)]
      rw [show (192 + n / 64 - 192) * 64 + (128 + n % 64 - 128) = n by omega, hofn]
    · rw [if_neg h2]
      by_cases h3 : n < 65536
      · rw [if_pos h3]
        show utf8DecodeLossy ((224 + n / 4096) :: (128 + n / 64 % 64) ::
          (128 + n % 64) :: bs) = c :: utf8DecodeLossy bs
        have hvs : validSecond3 (224 + n / 4096) (128 + n / 64 % 64) = true := by
          unfold validSecond3
          by_cases hb : 224 + n / 4096 = 224
          · rw [if_pos hb]
            simp only [Bool.and_eq_true, decide_eq_true_eq]
            omega
          · rw [if_neg hb]
            by_cases hb2 : 224 + n / 4096 = 237
            · rw [if_pos hb2]
              simp only [Bool.and_eq_true, decide_eq_true_eq]
              omega
            · rw [if_neg hb2]
              simp only [isCont, Bool.and_eq_true, decide_eq_true_eq]
              omega
        conv_lhs => unfold utf8DecodeLossy
        rw [if_neg (by omega), if_neg (by omega), if_neg (by omega), if_pos (by omega)]
        dsimp only
        rw [if_pos hvs]
        rw [if_pos (by simp only [isCont, Bool.and_eq_true, decide_eq_true_eq]; omega)]
        rw [show (224 + n / 4096 - 224) * 4096 + (128 + n / 64 % 64 - 128) * 64 +
          (128 + n % 64 - 128) = n by omega, hofn]
      · rw [if_neg h3]
        show utf8DecodeLossy ((240 + n / 262144) :: (128 + n / 4096 % 64) ::
          (128 + n / 64 % 64) :: (128 + n % 64) :: bs) = c :: utf8DecodeLossy bs
        have hvs : validSecond4 (240 + n / 262144) (128 + n / 4096 % 64) = true := by
          unfold validSecond4
          by_cases hb : 240 + n / 262144 = 240
          · rw [if_pos hb]
            simp only [Bool.and_eq_true, decide_eq_true_eq]
            omega
          · rw [if_neg hb]
            by_cases hb2 : 240 + n / 262144 = 244
            · rw [if_pos hb2]
              simp only [Bool.and_eq_true, decide_eq_true_eq]
              omega
            · rw [if_neg hb2]
              simp only [isCont, Bool.and_eq_true, decide_eq_true_eq]
              omega
        conv_lhs => unfold utf8DecodeLossy
        rw [if_neg (by omega), if_neg (by omega), if_neg (by omega), if_neg (by omega),
          if_pos (by omega)]
        dsimp only
        rw [if_pos hvs]
        rw [if_pos (by simp only [isCont, Bool.and_eq_true, decide_eq_true_eq]; omega)]
        rw [if_pos (by simp only [isCont, Bool.and_eq_true, decide_eq_true_eq]; omega)]
        rw [show (240 + n / 262144 - 240) * 262144 + (128 + n / 4096 % 64 - 128) * 4096 +
          (128 + n / 64 % 64 - 128) * 64 + (128 + n % 64 - 128) = n by omega, hofn]

theorem urlencodedSafe_facts (c : Char) (h : urlencodedSafe c = true) :
    c.toNat < 128 ∧ c.toNat ≠ 37 ∧ c.toNat ≠ 43 := by
  simp only [urlencodedSafe, Bool.or_eq_true, Bool.and_eq_true, decide_eq_true_eq] at h
  rcases h with (((((h | h) | h) | h) | h) | h) | h
  · omega
  · omega
  · omega
  · subst h; refine ⟨by decide, by decide, by decide⟩
  · subst h; refine ⟨by decide, by decide, by decide⟩
  · subst h; refine ⟨by decide, by decide, by decide⟩
  · subst h; refine ⟨by decide, by decide, by decide⟩

theorem percentDecodeBytes_cons_ne (b : Nat) (bs : List Nat) (hb : b ≠ 37) :
    percentDecodeBytes (b :: bs) = b :: percentDecodeBytes bs := by
  match bs with
  | [] => rfl
  | [b1] => rfl
  | b1 :: b2 :: rest =>
    conv_lhs => unfold percentDecodeBytes
    rw [if_neg (by simp [hb])]

theorem percentDecodeBytes_triple (b : Nat) (hb : b < 256) (R : List Nat) :
    percentDecodeBytes (37 :: (hexDigitChar (b / 16)).toNat ::
      (hexDigitChar (b % 16)).toNat :: R) = b :: percentDecodeBytes R := by
  obtain ⟨ht1, hh1, hv1, -⟩ := hexDigitChar_facts (b / 16) (by omega)
  obtain ⟨ht2, hh2, hv2, -⟩ := hexDigitChar_facts (b % 16) (by omega)
  conv_lhs => unfold percentDecodeBytes
  rw [if_pos ?cond]
  case cond =>
    have e1 : Char.ofNat (hexDigitChar (b / 16)).toNat = hexDigitChar (b / 16) :=
      Char.ofNat_toNat _
    have e2 : Char.ofNat (hexDigitChar (b % 16)).toNat = hexDigitChar (b % 16) :=
      Char.ofNat_toNat _
    rw [e1, e2, hh1, hh2]
    rfl
  have e1 : Char.ofNat (hexDigitChar (b / 16)).toNat = hexDigitChar (b / 16) :=
    Char.ofNat_toNat _
  have e2 : Char.ofNat (hexDigitChar (b % 16)).toNat = hexDigitChar (b % 16) :=
    Char.ofNat_toNat _
  rw [e1, e2, hv1, hv2, show b / 16 * 16 + b % 16 = b by omega]

theorem plusToSpace_append (a b : List Char) :
    plusToSpace (a ++ b) = plusToSpace a ++ plusToSpace b :=
  List.map_append _ a b

theorem utf8Encode_append (a b : List Char) :
    utf8Encode (a ++ b) = utf8Encode a ++ utf8Encode b :=
  List.flatMap_append a b _

theorem percent_triple_list : ∀ (l : List Nat), (∀ b ∈ l, b < 256) → ∀ (R : List Nat),
    percentDecodeBytes (utf8Encode (plusToSpace (l.flatMap
      (fun b => ['%', hexDigitChar (b / 16), hexDigitChar (b % 16)]))) ++ R) =
      l ++ percentDecodeBytes R := by
  intro l
  induction l with
  | nil => intro _ R; rfl
  | cons b l' ih =>
    intro hlt R
    have hb : b < 256 := hlt b (by simp)
    obtain ⟨ht1, -, -, hp1, -⟩ := hexDigitChar_facts (b / 16) (by omega)
    obtain ⟨ht2, -, -, hp2, -⟩ := hexDigitChar_facts (b % 16) (by omega)
    rw [List.flatMap_cons, plusToSpace_append, utf8Encode_append]
    have htr : plusToSpace ['%', hexDigitChar (b / 16), hexDigitChar (b % 16)] =
        ['%', hexDigitChar (b / 16), hexDigitChar (b % 16)] := by
      simp only [plusToSpace, List.map_cons, List.map_nil]
      rw [if_neg (by decide), if_neg hp1, if_neg hp2]
    rw [htr]
    have henc : utf8Encode ['%', hexDigitChar (b / 16), hexDigitChar (b % 16)] =
        [37, (hexDigitChar (b / 16)).toNat, (hexDigitChar (b % 16)).toNat] := by
      simp only [utf8Encode, List.flatMap_cons, List.flatMap_nil]
      have e1 : utf8Char '%' = [37] := rfl
      have e2 : utf8Char (hexDigitChar (b / 16)) = [(hexDigitChar (b / 16)).toNat] := by
        unfold utf8Char
        dsimp only
        rw [if_pos (by rw [ht1]; split <;> omega)]
      have e3 : utf8Char (hexDigitChar (b % 16)) = [(hexDigitChar (b % 16)).toNat] := by
        unfold utf8Char
        dsimp only
        rw [if_pos (by rw [ht2]; split <;> omega)]
      rw [e1, e2, e3]
      rfl
    rw [henc, List.append_assoc]
    simp only [List.cons_append, List.nil_append]
    rw [percentDecodeBytes_triple b hb, ih (fun x hx => hlt x (by simp [hx])) R]

theorem percent_enc_char (c : Char) (rest : List Char) :
    percentDecodeBytes (utf8Encode (plusToSpace (encodeComponentChar c ++ rest))) =
      utf8Char c ++ percentDecodeBytes (utf8Encode (plusToSpace rest)) := by
  rw [plusToSpace_append, utf8Encode_append]
  unfold encodeComponentChar
  by_cases h1 : c = ' '
  · subst h1
    rw [if_pos rfl]
    show percentDecodeBytes (32 :: utf8Encode (plusToSpace rest)) = _
    rw [percentDecodeBytes_cons_ne 32 _ (by omega)]
    rfl
  · rw [if_neg h1]
    by_cases h2 : urlencodedSafe c = true
    · rw [if_pos h2]
      obtain ⟨hlt, h37, h43⟩ := urlencodedSafe_facts c h2
      have hplus : plusToSpace [c] = [c] := by
        simp only [plusToSpace, List.map_cons, List.map_nil]
        rw [if_neg (fun he => h43 (by rw [he]; rfl))]
      have hu : utf8Char c = [c.toNat] := by
        unfold utf8Char
        dsimp only
        rw [if_pos hlt]
      have henc : utf8Encode [c] = [c.toNat] := by
        simp only [utf8Encode, List.flatMap_cons, List.flatMap_nil]
        rw [hu]
        rfl
      rw [hplus, henc, hu]
      show percentDecodeBytes (c.toNat :: utf8Encode (plusToSpace rest)) = _
      rw [percentDecodeBytes_cons_ne c.toNat _ h37]
      rfl
    · rw [if_neg h2]
      exact percent_triple_list (utf8Char c) (utf8Char_bytes_lt c) _

theorem utf8DecodeLossy_utf8Encode : ∀ l : List Char,
    utf8DecodeLossy (utf8Encode l) = l := by
  intro l
  induction l with
  | nil => rfl
  | cons c t ih =>
    show utf8DecodeLossy (utf8Char c ++ utf8Encode t) = c :: t
    rw [utf8DecodeLossy_utf8Char, ih]

theorem decodeComponent_encodeComponent : ∀ l : List Char,
    decodeComponentChars (encodeComponentChars l) = l := by
  have hmid : ∀ l : List Char,
      percentDecodeBytes (utf8Encode (plusToSpace (encodeComponentChars l))) =
        utf8Encode l := by
    intro l
    induction l with
    | nil => rfl
    | cons c t ih =>
      show percentDecodeBytes (utf8Encode (plusToSpace
        (encodeComponentChar c ++ encodeComponentChars t))) = utf8Encode (c :: t)
      rw [percent_enc_char, ih]
      rfl
  intro l
  unfold decodeComponentChars
  rw [hmid, utf8DecodeLossy_utf8Encode]

theorem splitAmp_no_amp : ∀ l : List Char, '&' ∉ l → splitAmp l = [l] := by
  intro l
  induction l with
  | nil => intro _; rfl
  | cons c cs ih =>
    intro h
    unfold splitAmp
    rw [if_neg (by intro he; exact h (by rw [he]; simp)), ih (by intro hm; exact h (by simp [hm]))]

theorem splitAmp_append : ∀ x r : List Char, '&' ∉ x →
    splitAmp (x ++ '&' :: r) = x :: splitAmp r := by
  intro x
  induction x with
  | nil =>
    intro r _
    show splitAmp ('&' :: r) = [] :: splitAmp r
    conv_lhs => unfold splitAmp
    rw [if_pos rfl]
  | cons c cs ih =>
    intro r h
    show splitAmp (c :: (cs ++ '&' :: r)) = (c :: cs) :: splitAmp r
    conv_lhs => unfold splitAmp
    rw [if_neg (by intro he; exact h (by rw [he]; simp)),
      ih r (by intro hm; exact h (by simp [hm]))]

theorem splitAmp_joinAmp : ∀ pieces : List (List Char), pieces ≠ [] →
    (∀ p ∈ pieces, '&' ∉ p) → splitAmp (joinAmp pieces) = pieces := by
  intro pieces
  induction pieces with
  | nil => intro h _; exact absurd rfl h
  | cons x rest ih =>
    intro _ hmem
    cases rest with
    | nil => exact splitAmp_no_amp x (hmem x (by simp))
    | cons y rest' =>
      rw [show joinAmp (x :: y :: rest') = x ++ '&' :: joinAmp (y :: rest') from rfl]
      rw [splitAmp_append x _ (hmem x (by simp)),
        ih (by simp) (fun p hp => hmem p (by simp [hp]))]

theorem splitFirstEq_append : ∀ a b : List Char, '=' ∉ a →
    splitFirstEq (a ++ '=' :: b) = (a, b) := by
  intro a
  induction a with
  | nil =>
    intro b _
    show splitFirstEq ('=' :: b) = ([], b)
    unfold splitFirstEq
    rw [if_pos rfl]
  | cons c cs ih =>
    intro b h
    show splitFirstEq (c :: (cs ++ '=' :: b)) = (c :: cs, b)
    unfold splitFirstEq
    rw [if_neg (by intro he; exact h (by rw [he]; simp))]
    dsimp only
    rw [ih b (by intro hm; exact h (by simp [hm]))]

theorem mem_encodeComponentChar {c d : Char} (hd : d ∈ encodeComponentChar c) :
    d = '+' ∨ d = '%' ∨ isHexDigit d = true ∨ urlencodedSafe d = true := by
  unfold encodeComponentChar at hd
  by_cases h1 : c = ' '
  · rw [if_pos h1] at hd
    simp at hd
    left
    exact hd
  · rw [if_neg h1] at hd
    by_cases h2 : urlencodedSafe c = true
    · rw [if_pos h2] at hd
      simp at hd
      subst hd
      right; right; right
      exact h2
    · rw [if_neg h2] at hd
      rw [List.mem_flatMap] at hd
      obtain ⟨b, hb, hdm⟩ := hd
      have hblt : b < 256 := utf8Char_bytes_lt c b hb
      obtain ⟨-, hh1, -⟩ := hexDigitChar_facts (b / 16) (by omega)
      obtain ⟨-, hh2, -⟩ := hexDigitChar_facts (b % 16) (by omega)
      simp at hdm
      rcases hdm with rfl | rfl | rfl
      · right; left; rfl
      · right; right; left; exact hh1
      · right; right; left; exact hh2

theorem not_mem_encodeComponentChars (d : Char) (h1 : d ≠ '+') (h2 : d ≠ '%')
    (h3 : isHexDigit d = false) (h4 : urlencodedSafe d = false) :
    ∀ l : List Char, d ∉ encodeComponentChars l := by
  intro l hd
  rw [encodeComponentChars, List.mem_flatMap] at hd
  obtain ⟨c, -, hdc⟩ := hd
  rcases mem_encodeComponentChar hdc with h | h | h | h
  · exact h1 h
  · exact h2 h
  · rw [h3] at h; exact Bool.false_ne_true h
  · rw [h4] at h; exact Bool.false_ne_true h

theorem amp_not_mem_piece (k v : String) :
    '&' ∉ encodeComponentChars k.data ++ '=' :: encodeComponentChars v.data := by
  intro hm
  rw [List.mem_append] at hm
  rcases hm with hm | hm
  · exact not_mem_encodeComponentChars '&' (by decide) (by decide) (by decide) (by decide)
      k.data hm
  · rw [List.mem_cons] at hm
    rcases hm with hm | hm
    · exact absurd hm (by decide)
    · exact not_mem_encodeComponentChars '&' (by decide) (by decide) (by decide) (by decide)
        v.data hm

theorem parse_piece (k v : String) :
    splitFirstEq (encodeComponentChars k.data ++ '=' :: encodeComponentChars v.data) =
      (encodeComponentChars k.data, encodeComponentChars v.data) :=
  splitFirstEq_append _ _ (not_mem_encodeComponentChars '=' (by decide) (by decide)
    (by decide) (by decide) k.data)

theorem parsePairs_serializePairs (ps : List (String × String)) :
    parsePairs (serializePairs ps) = ps := by
  unfold parsePairs serializePairs
  show ((splitAmp (joinAmp (ps.map (fun p =>
    encodeComponentChars p.1.data ++ '=' :: encodeComponentChars p.2.data)))).filterMap _) = ps
  cases hps : ps with
  | nil => rfl
  | cons q rest =>
    rw [splitAmp_joinAmp _ (by simp) (by
      intro piece hp
      rw [List.mem_map] at hp
      obtain ⟨pr, -, hpr⟩ := hp
      rw [← hpr]
      exact amp_not_mem_piece pr.1 pr.2)]
    rw [List.filterMap_map]
    show List.filterMap _ (q :: rest) = q :: rest
    clear hps
    induction (q :: rest) with
    | nil => rfl
    | cons pr t ih =>
      rw [List.filterMap_cons]
      have hne : encodeComponentChars pr.1.data ++ '=' :: encodeComponentChars pr.2.data ≠
          ([] : List Char) := by
        intro he
        have := congrArg List.length he
        rw [List.length_append, List.length_cons] at this
        simp at this
      have hstep : ((fun piece => if piece = ([] : List Char) then none else
          let p := splitFirstEq piece
          some (String.mk (decodeComponentChars p.1), String.mk (decodeComponentChars p.2))) ∘
          (fun p => encodeComponentChars p.1.data ++ '=' ::
            encodeComponentChars p.2.data)) pr = some pr := by
        show (if (encodeComponentChars pr.1.data ++ '=' :: encodeComponentChars pr.2.data) =
            ([] : List Char) then none else
          let p := splitFirstEq (encodeComponentChars pr.1.data ++ '=' ::
            encodeComponentChars pr.2.data)
          some (String.mk (decodeComponentChars p.1),
            String.mk (decodeComponentChars p.2))) = some pr
        rw [if_neg hne, parse_piece]
        show some (String.mk (decodeComponentChars (encodeComponentChars pr.1.data)),
          String.mk (decodeComponentChars (encodeComponentChars pr.2.data))) = some pr
        rw [decodeComponent_encodeComponent, decodeComponent_encodeComponent]
      rw [hstep, ih]

theorem splitFirstChar_none (sep : Char) :
    ∀ l : List Char, splitFirstChar sep l = none → sep ∉ l := by
  intro l
  induction l with
  | nil => intro _; simp
  | cons c cs ih =>
    intro h
    unfold splitFirstChar at h
    by_cases hc : c = sep
    · rw [if_pos hc] at h
      exact absurd h (by simp)
    · rw [if_neg hc] at h
      intro hm
      rcases List.mem_cons.mp hm with he | hm'
      · exact hc he.symm
      · cases hs : splitFirstChar sep cs with
        | none => exact ih hs hm'
        | some p => rw [hs] at h; exact absurd h (by simp)

theorem splitFirstChar_not_mem (sep : Char) :
    ∀ l : List Char, sep ∉ l → splitFirstChar sep l = none := by
  intro l
  induction l with
  | nil => intro _; rfl
  | cons c cs ih =>
    intro h
    unfold splitFirstChar
    rw [if_neg (fun he => h (by rw [he]; simp)), ih (fun hm => h (by simp [hm]))]
    rfl

theorem splitFirstChar_append (sep : Char) :
    ∀ a b : List Char, sep ∉ a → splitFirstChar sep (a ++ sep :: b) = some (a, b) := by
  intro a
  induction a with
  | nil =>
    intro b _
    show splitFirstChar sep (sep :: b) = some ([], b)
    unfold splitFirstChar
    rw [if_pos rfl]
  | cons c cs ih =>
    intro b h
    show splitFirstChar sep (c :: (cs ++ sep :: b)) = some (c :: cs, b)
    unfold splitFirstChar
    rw [if_neg (fun he => h (by rw [he]; simp)), ih b (fun hm => h (by simp [hm]))]
    rfl

theorem splitFirstChar_inv (sep : Char) :
    ∀ (l a b : List Char), splitFirstChar sep l = some (a, b) →
      sep ∉ a ∧ l = a ++ sep :: b := by
  intro l
  induction l with
  | nil => intro a b h; exact absurd h (by simp [splitFirstChar])
  | cons c cs ih =>
    intro a b h
    unfold splitFirstChar at h
    by_cases hc : c = sep
    · rw [if_pos hc] at h
      have := Option.some_inj.mp h
      rw [show a = ([] : List Char) from (congrArg Prod.fst this).symm,
        show b = cs from (congrArg Prod.snd this).symm]
      subst hc
      exact ⟨by simp, rfl⟩
    · rw [if_neg hc] at h
      cases hs : splitFirstChar sep cs with
      | none => rw [hs] at h; exact absurd h (by simp)
      | some p =>
        rw [hs] at h
        simp only [Option.map_some', Option.some_inj] at h
        obtain ⟨hp1, hp2⟩ := ih p.1 p.2 (by rw [hs])
        rw [show a = c :: p.1 from (congrArg Prod.fst h).symm,
          show b = p.2 from (congrArg Prod.snd h).symm]
        constructor
        · intro hm
          rcases List.mem_cons.mp hm with he | hm'
          · exact hc he.symm
          · exact hp1 hm'
        · rw [List.cons_append, hp2]

theorem validScheme_no_colon (l : List Char) (h : validScheme l = true) : ':' ∉ l := by
  cases l with
  | nil => simp
  | cons c cs =>
    unfold validScheme at h
    rw [Bool.and_eq_true, List.all_eq_true] at h
    intro hm
    rcases List.mem_cons.mp hm with he | hm'
    · rw [← he] at h
      exact absurd h.1 (by decide)
    · have := h.2 ':' hm'
      exact absurd this (by decide)

theorem jsUrlParse_serializeJsUrl (w : JsUrl)
    (hs : validScheme w.scheme.data = true)
    (hc1 : '?' ∉ w.core.data) (hc2 : '#' ∉ w.core.data)
    (hq : ∀ q, w.query = some q → '#' ∉ q.data) :
    jsUrlParse (serializeJsUrl w) = some w := by
  obtain ⟨sch, core, query, frag⟩ := w
  have hnc : ':' ∉ sch.data := validScheme_no_colon _ hs
  dsimp only at hs hc1 hc2 hq
  cases query with
  | none =>
    cases frag with
    | none =>
      show jsUrlParse (String.mk (sch.data ++ ':' :: core.data ++ [] ++ [])) = _
      rw [show sch.data ++ ':' :: core.data ++ ([] : List Char) ++ ([] : List Char) =
        sch.data ++ ':' :: core.data from by simp]
      unfold jsUrlParse
      rw [show (String.mk (sch.data ++ ':' :: core.data)).data =
        sch.data ++ ':' :: core.data from rfl]
      rw [splitFirstChar_append ':' sch.data core.data hnc]
      dsimp only
      rw [if_pos hs]
      rw [splitFirstChar_not_mem '#' core.data hc2]
      dsimp only
      rw [splitFirstChar_not_mem '?' core.data hc1]
      rfl
    | some f =>
      show jsUrlParse (String.mk (sch.data ++ ':' :: core.data ++ [] ++
        '#' :: f.data)) = _
      rw [show sch.data ++ ':' :: core.data ++ ([] : List Char) ++ '#' :: f.data =
        sch.data ++ ':' :: (core.data ++ '#' :: f.data) from by simp]
      unfold jsUrlParse
      rw [show (String.mk (sch.data ++ ':' :: (core.data ++ '#' :: f.data))).data =
        sch.data ++ ':' :: (core.data ++ '#' :: f.data) from rfl]
      rw [splitFirstChar_append ':' sch.data _ hnc]
      dsimp only
      rw [if_pos hs]
      rw [splitFirstChar_append '#' core.data f.data hc2]
      dsimp only
      rw [splitFirstChar_not_mem '?' core.data hc1]
      rfl
  | some q =>
    have hq' : '#' ∉ q.data := hq q rfl
    cases frag with
    | none =>
      show jsUrlParse (String.mk (sch.data ++ ':' :: core.data ++ '?' :: q.data ++ [])) = _
      rw [show sch.data ++ ':' :: core.data ++ '?' :: q.data ++ ([] : List Char) =
        sch.data ++ ':' :: (core.data ++ '?' :: q.data) from by simp]
      unfold jsUrlParse
      rw [show (String.mk (sch.data ++ ':' :: (core.data ++ '?' :: q.data))).data =
        sch.data ++ ':' :: (core.data ++ '?' :: q.data) from rfl]
      rw [splitFirstChar_append ':' sch.data _ hnc]
      dsimp only
      rw [if_pos hs]
      rw [splitFirstChar_not_mem '#' (core.data ++ '?' :: q.data) (by
        intro hm
        rcases List.mem_append.mp hm with hm' | hm'
        · exact hc2 hm'
        · rcases List.mem_cons.mp hm' with he | hm''
          · exact absurd he (by decide)
          · exact hq' hm'')]
      dsimp only
      rw [splitFirstChar_append '?' core.data q.data hc1]
      rfl
    | some f =>
      show jsUrlParse (String.mk (sch.data ++ ':' :: core.data ++ '?' :: q.data ++
        '#' :: f.data)) = _
      rw [show sch.data ++ ':' :: core.data ++ '?' :: q.data ++ '#' :: f.data =
        sch.data ++ ':' :: ((core.data ++ '?' :: q.data) ++ '#' :: f.data) from by simp]
      unfold jsUrlParse
      rw [show (String.mk (sch.data ++ ':' ::
        ((core.data ++ '?' :: q.data) ++ '#' :: f.data))).data =
        sch.data ++ ':' :: ((core.data ++ '?' :: q.data) ++ '#' :: f.data) from rfl]
      rw [splitFirstChar_append ':' sch.data _ hnc]
      dsimp only
      rw [if_pos hs]
      rw [splitFirstChar_append '#' (core.data ++ '?' :: q.data) f.data (by
        intro hm
        rcases List.mem_append.mp hm with hm' | hm'
        · exact hc2 hm'
        · rcases List.mem_cons.mp hm' with he | hm''
          · exact absurd he (by decide)
          · exact hq' hm'')]
      dsimp only
      rw [splitFirstChar_append '?' core.data q.data hc1]
      rfl

theorem jsUrlParse_inv (u : String) (w : JsUrl) (h : jsUrlParse u = some w) :
    validScheme w.scheme.data = true ∧ '?' ∉ w.core.data ∧ '#' ∉ w.core.data ∧
      (∀ q, w.query = some q → '#' ∉ q.data) := by
  unfold jsUrlParse at h
  cases hc : splitFirstChar ':' u.data with
  | none => rw [hc] at h; exact absurd h (by simp)
  | some p =>
    rw [hc] at h
    dsimp only at h
    by_cases hv : validScheme p.1 = true
    · rw [if_pos hv] at h
      cases hh : splitFirstChar '#' p.2 with
      | none =>
        rw [hh] at h
        dsimp only at h
        have hnh : '#' ∉ p.2 := splitFirstChar_none '#' p.2 hh
        cases hqs : splitFirstChar '?' p.2 with
        | none =>
          rw [hqs] at h
          dsimp only at h
          have hnq : '?' ∉ p.2 := splitFirstChar_none '?' p.2 hqs
          rw [← Option.some_inj.mp h]
          exact ⟨hv, hnq, hnh, by intro q hq; exact absurd hq (by simp)⟩
        | some cq =>
          rw [hqs] at h
          dsimp only at h
          obtain ⟨hq1, hq2⟩ := splitFirstChar_inv '?' p.2 cq.1 cq.2 (by rw [hqs])
          rw [← Option.some_inj.mp h]
          refine ⟨hv, hq1, ?_, ?_⟩
          · intro hm
            exact hnh (by rw [hq2]; simp [hm])
          · intro q hq
            dsimp only at hq
            rw [Option.map_eq_some'] at hq
            obtain ⟨a, ha, haq⟩ := hq
            have hqd : q.data = cq.2 := by
              rw [← haq]
              exact (Option.some_inj.mp ha).symm
            intro hm
            rw [hqd] at hm
            exact hnh (by rw [hq2]; simp [hm])
      | some bh =>
        rw [hh] at h
        dsimp only at h
        obtain ⟨hh1, hh2⟩ := splitFirstChar_inv '#' p.2 bh.1 bh.2 (by rw [hh])
        cases hqs : splitFirstChar '?' bh.1 with
        | none =>
          rw [hqs] at h
          dsimp only at h
          have hnq : '?' ∉ bh.1 := splitFirstChar_none '?' bh.1 hqs
          rw [← Option.some_inj.mp h]
          exact ⟨hv, hnq, hh1, by intro q hq; exact absurd hq (by simp)⟩
        | some cq =>
          rw [hqs] at h
          dsimp only at h
          obtain ⟨hq1, hq2⟩ := splitFirstChar_inv '?' bh.1 cq.1 cq.2 (by rw [hqs])
          rw [← Option.some_inj.mp h]
          refine ⟨hv, hq1, ?_, ?_⟩
          · intro hm
            exact hh1 (by rw [hq2]; simp [hm])
          · intro q hq
            dsimp only at hq
            rw [Option.map_eq_some'] at hq
            obtain ⟨a, ha, haq⟩ := hq
            have hqd : q.data = cq.2 := by
              rw [← haq]
              exact (Option.some_inj.mp ha).symm
            intro hm
            rw [hqd] at hm
            exact hh1 (by rw [hq2]; simp [hm])
    · rw [if_neg hv] at h
      exact absurd h (by simp)

theorem jsUrlParse_ne_empty (u : String) (w : JsUrl) (h : jsUrlParse u = some w) :
    u ≠ "" := by
  intro he
  subst he
  unfold jsUrlParse at h
  exact absurd h (by simp [splitFirstChar, String.data])

theorem joinAmp_mem (d : Char) :
    ∀ pieces : List (List Char), d ∈ joinAmp pieces →
      d = '&' ∨ ∃ piece ∈ pieces, d ∈ piece := by
  intro pieces
  induction pieces with
  | nil => intro h; simp [joinAmp] at h
  | cons x rest ih =>
    intro h
    cases rest with
    | nil =>
      right
      exact ⟨x, by simp, h⟩
    | cons y rest' =>
      rw [show joinAmp (x :: y :: rest') = x ++ '&' :: joinAmp (y :: rest') from rfl] at h
      rcases List.mem_append.mp h with hm | hm
      · right
        exact ⟨x, by simp, hm⟩
      · rcases List.mem_cons.mp hm with he | hm'
        · left
          exact he
        · rcases ih hm' with he | ⟨piece, hp, hd⟩
          · left
            exact he
          · right
            exact ⟨piece, by simp [hp], hd⟩

theorem hash_not_mem_serializePairs (ps : List (String × String)) :
    '#' ∉ (serializePairs ps).data := by
  intro hm
  rw [show (serializePairs ps).data = joinAmp (ps.map (fun p =>
    encodeComponentChars p.1.data ++ '=' :: encodeComponentChars p.2.data)) from rfl] at hm
  rcases joinAmp_mem '#' _ hm with he | ⟨piece, hp, hd⟩
  · exact absurd he (by decide)
  · rw [List.mem_map] at hp
    obtain ⟨pr, -, hpr⟩ := hp
    rw [← hpr] at hd
    rcases List.mem_append.mp hd with hm' | hm'
    · exact not_mem_encodeComponentChars '#' (by decide) (by decide) (by decide) (by decide)
        pr.1.data hm'
    · rcases List.mem_cons.mp hm' with he | hm''
      · exact absurd he (by decide)
      · exact not_mem_encodeComponentChars '#' (by decide) (by decide) (by decide) (by decide)
          pr.2.data hm''

theorem serializePairs_ne_empty (q : String × String) (rest : List (String × String)) :
    (serializePairs (q :: rest)).data ≠ [] := by
  rw [show (serializePairs (q :: rest)).data = joinAmp ((q :: rest).map (fun p =>
    encodeComponentChars p.1.data ++ '=' :: encodeComponentChars p.2.data)) from rfl]
  rw [List.map_cons]
  cases hrest : rest.map (fun p =>
      encodeComponentChars p.1.data ++ '=' :: encodeComponentChars p.2.data) with
  | nil =>
    show encodeComponentChars q.1.data ++ '=' :: encodeComponentChars q.2.data ≠ []
    intro he
    have := congrArg List.length he
    rw [List.length_append, List.length_cons] at this
    simp at this
  | cons z zs =>
    show encodeComponentChars q.1.data ++ '=' :: encodeComponentChars q.2.data ++
      '&' :: joinAmp (z :: zs) ≠ []
    intro he
    have := congrArg List.length he
    rw [List.length_append, List.length_cons] at this
    simp at this

theorem parseUrlParams_of_query (u : String) (w : JsUrl) (q : String)
    (hparse : jsUrlParse u = some w) (hq : w.query = some q) (hqne : q ≠ "") :
    parseUrlParams u = (parsePairs q).map (fun pr => ⟨pr.1, pr.2, true⟩) := by
  unfold parseUrlParams jsSearch
  rw [if_neg (jsUrlParse_ne_empty u w hparse), hparse]
  dsimp only
  rw [hq]
  dsimp only
  rw [if_neg hqne]
  unfold parseQueryString
  rw [if_neg (by
    intro he
    have := congrArg String.data he
    simp [String.data] at this)]
  rw [show (String.mk ('?' :: q.data)).data = '?' :: q.data from rfl]
  rfl

theorem parseUrlParams_of_no_query (u : String) (w : JsUrl)
    (hparse : jsUrlParse u = some w) (hq : w.query = none) :
    parseUrlParams u = [] := by
  unfold parseUrlParams jsSearch
  rw [if_neg (jsUrlParse_ne_empty u w hparse), hparse]
  dsimp only
  rw [hq]
  rfl

theorem buildUrlWithParams_eq (base : String) (w0 : JsUrl) (P0 : List QueryParam)
    (h : jsUrlParse base = some w0) :
    buildUrlWithParams base P0 = serializeJsUrl { w0 with
      query := if P0.filter (fun p => p.enabled && p.key ≠ "") = [] then none
        else some (serializePairs ((P0.filter (fun p => p.enabled && p.key ≠ "")).map
          (fun p => (p.key, p.value)))) } := by
  unfold buildUrlWithParams
  rw [h]

/-- C4 (amended): for an absolute URL with a valid scheme and a
non-empty query whose pairs all have non-empty keys, rebuilding the URL
from its own parsed parameters preserves the parsed parameter list
exactly, and the rebuild is idempotent: applying it once more to its
own output changes nothing.  (For idempotence no key condition is
needed.) -/
theorem buildUrl_parseUrl_roundtrip (u : String) (w : JsUrl) (q : String)
    (hparse : jsUrlParse u = some w) (hq : w.query = some q) (hqne : q ≠ "") :
    ((∀ p ∈ parseUrlParams u, p.key ≠ "") →
      parseUrlParams (buildUrlWithParams u (parseUrlParams u)) = parseUrlParams u) ∧
    buildUrlWithParams (buildUrlWithParams u (parseUrlParams u))
      (parseUrlParams (buildUrlWithParams u (parseUrlParams u))) =
      buildUrlWithParams u (parseUrlParams u) := by
  obtain ⟨hvs, hc1, hc2, hqh⟩ := jsUrlParse_inv u w hparse
  have hP : parseUrlParams u =
      (parsePairs q).map (fun pr => ⟨pr.1, pr.2, true⟩) :=
    parseUrlParams_of_query u w q hparse hq hqne
  have hkept : (parseUrlParams u).filter (fun p => p.enabled && p.key ≠ "") =
      ((parsePairs q).filter (fun pr => decide (pr.1 ≠ ""))).map
        (fun pr => (⟨pr.1, pr.2, true⟩ : QueryParam)) := by
    rw [hP, List.filter_map]
    have hcong : List.filter ((fun p => p.enabled && decide (p.key ≠ "")) ∘
        fun pr => ({ key := pr.1, value := pr.2, enabled := true } : QueryParam))
        (parsePairs q) =
        List.filter (fun pr => decide (pr.1 ≠ "")) (parsePairs q) :=
      List.filter_congr (fun pr _ => by simp)
    rw [hcong]
  have hKto : ∀ K : List (String × String),
      ((K.map (fun pr => (⟨pr.1, pr.2, true⟩ : QueryParam))).map
        (fun p => (p.key, p.value))) = K := by
    intro K
    rw [List.map_map]
    exact map_eq_self_of_eq _ K (fun pr _ => rfl)
  set K := (parsePairs q).filter (fun pr => decide (pr.1 ≠ "")) with hKdef
  by_cases hK : K = []
  · have hkept0 : (parseUrlParams u).filter (fun p => p.enabled && p.key ≠ "") = [] := by
      rw [hkept, hK]
      rfl
    have hr : buildUrlWithParams u (parseUrlParams u) =
        serializeJsUrl { w with query := none } := by
      rw [buildUrlWithParams_eq u w _ hparse, hkept0]
      rfl
    have hr2 : jsUrlParse (buildUrlWithParams u (parseUrlParams u)) =
        some { w with query := none } := by
      rw [hr]
      exact jsUrlParse_serializeJsUrl _ hvs hc1 hc2
        (fun q' hq' => absurd hq' (by simp))
    have hpr : parseUrlParams (buildUrlWithParams u (parseUrlParams u)) = [] :=
      parseUrlParams_of_no_query _ _ hr2 rfl
    constructor
    · intro hKeys
      have hall : ∀ pr ∈ parsePairs q, decide (pr.1 ≠ "") = true := by
        intro pr hpr'
        exact decide_eq_true (hKeys ⟨pr.1, pr.2, true⟩
          (by rw [hP]; exact List.mem_map_of_mem _ hpr'))
      have hprs : parsePairs q = [] := by
        rw [← List.filter_eq_self.mpr hall]
        exact hK
      rw [hpr, hP, hprs]
      rfl
    · rw [hpr, buildUrlWithParams_eq _ _ [] hr2]
      rw [show (([] : List QueryParam).filter (fun p => p.enabled && p.key ≠ "")) =
        ([] : List QueryParam) from rfl]
      rw [if_pos rfl, hr]
  · have hmapne : K.map (fun pr => (⟨pr.1, pr.2, true⟩ : QueryParam)) ≠ [] := by
      rw [ne_eq, List.map_eq_nil_iff]
      exact hK
    have hr : buildUrlWithParams u (parseUrlParams u) =
        serializeJsUrl { w with query := some (serializePairs K) } := by
      rw [buildUrlWithParams_eq u w _ hparse, hkept, if_neg hmapne, hKto K]
    have hr2 : jsUrlParse (buildUrlWithParams u (parseUrlParams u)) =
        some { w with query := some (serializePairs K) } := by
      rw [hr]
      exact jsUrlParse_serializeJsUrl _ hvs hc1 hc2 (fun q' hq' => by
        rw [← Option.some_inj.mp hq']
        exact hash_not_mem_serializePairs K)
    have hsne : serializePairs K ≠ "" := by
      intro he
      cases hKl : K with
      | nil => exact hK hKl
      | cons a b =>
        apply serializePairs_ne_empty a b
        rw [← hKl, he]
    have hpr : parseUrlParams (buildUrlWithParams u (parseUrlParams u)) =
        K.map (fun pr => (⟨pr.1, pr.2, true⟩ : QueryParam)) := by
      rw [parseUrlParams_of_query _ _ (serializePairs K) hr2 rfl hsne,
        parsePairs_serializePairs]
    constructor
    · intro hKeys
      have hall : ∀ pr ∈ parsePairs q, decide (pr.1 ≠ "") = true := by
        intro pr hpr'
        exact decide_eq_true (hKeys ⟨pr.1, pr.2, true⟩
          (by rw [hP]; exact List.mem_map_of_mem _ hpr'))
      have hKprs : K = parsePairs q := by
        rw [hKdef]
        exact List.filter_eq_self.mpr hall
      rw [hpr, hKprs, hP]
    · rw [hpr, buildUrlWithParams_eq _ _ _ hr2]
      have hfilter2 : (K.map (fun pr => (⟨pr.1, pr.2, true⟩ : QueryParam))).filter
          (fun p => p.enabled && p.key ≠ "") =
          K.map (fun pr => (⟨pr.1, pr.2, true⟩ : QueryParam)) := by
        apply List.filter_eq_self.mpr
        intro p hp
        rw [List.mem_map] at hp
        obtain ⟨pr, hprK, hpeq⟩ := hp
        rw [hKdef] at hprK
        have hd : decide (pr.1 ≠ "") = true := (List.mem_filter.mp hprK).2
        rw [← hpeq]
        simp only [Bool.and_eq_true]
        exact ⟨trivial, hd⟩
      rw [hfilter2, if_neg hmapne, hKto K, hr]

/-- Counterexample to C4 as stated: the URL "http://x/?=c" has a valid
scheme and a non-empty query parsing to the single pair ("", "c"), but
buildUrlWithParams drops empty-key parameters, so the rebuilt URL has
no query pairs at all: key/value membership is not preserved. -/
theorem buildUrl_roundtrip_counterexample :
    jsUrlParse "http://x/?=c" = some ⟨"http", "//x/", some "=c", none⟩ ∧
    ("=c" : String) ≠ "" ∧
    parseUrlParams "http://x/?=c" = [⟨"", "c", true⟩] ∧
    (parseUrlParams (buildUrlWithParams "http://x/?=c"
      (parseUrlParams "http://x/?=c"))).map (fun p => (p.key, p.value)) ≠
    (parseUrlParams "http://x/?=c").map (fun p => (p.key, p.value)) := by
  refine ⟨by decide, by decide, by decide, by decide⟩

/-- Witness for the amended C4 at a two-parameter URL. -/
theorem buildUrl_parseUrl_roundtrip_witness :
    ((∀ p ∈ parseUrlParams "https://api.example.com/x?id=1&b=two", p.key ≠ "") →
      parseUrlParams (buildUrlWithParams "https://api.example.com/x?id=1&b=two"
        (parseUrlParams "https://api.example.com/x?id=1&b=two")) =
      parseUrlParams "https://api.example.com/x?id=1&b=two") ∧
    buildUrlWithParams
      (buildUrlWithParams "https://api.example.com/x?id=1&b=two"
        (parseUrlParams "https://api.example.com/x?id=1&b=two"))
      (parseUrlParams (buildUrlWithParams "https://api.example.com/x?id=1&b=two"
        (parseUrlParams "https://api.example.com/x?id=1&b=two"))) =
      buildUrlWithParams "https://api.example.com/x?id=1&b=two"
        (parseUrlParams "https://api.example.com/x?id=1&b=two") :=
  buildUrl_parseUrl_roundtrip "https://api.example.com/x?id=1&b=two"
    ⟨"https", "//api.example.com/x", some "id=1&b=two", none⟩ "id=1&b=two"
    (by decide) (by decide) (by decide)
